import Mathlib

/-! # Rule lifecycle manager

A shallow embedding of `rule-mgr/rule_mgr.go`: the per-chain collection of rule
records kept in an object store, the state machine built by `setFSM`, and the
operations `Register`, `BindPre`, `SetMaster` and `ChangeStatus`.

Strings stand for Go strings and byte slices (`string(chainId)` is the
identity), a `[]*Rule` is a `List Rule`, and the mutation of records through
pointers inside a loop is a recursive function returning the updated list.
The `FSM` field of a record carries no exported state: it is rebuilt from
`Status` by `setFSM` whenever an event is fired, so a record is modelled by its
four durable fields.
-/

namespace RuleMgr

/-! ## Governance vocabulary -/

/-- Status of a rule: `g.GovernanceStatus`, a string type. -/
abbrev GovernanceStatus := String

/-- Name of a governance event: `g.EventType`, a string type. -/
abbrev EventType := String

/-- Modelled from the spec: the constants of the governance package are not part
of the sources at hand; the spec names the statuses `Bindable`, `Binding`,
`Available`, `Unbinding`, `Freezing`, `Frozen`, `Activating`, `Logouting`,
`Forbidden`, written here in the lower-case form the spec uses for event names. -/
def GovernanceBindable : GovernanceStatus := "bindable"

/-- Modelled from the spec: status `Binding` of the governance package. -/
def GovernanceBinding : GovernanceStatus := "binding"

/-- Modelled from the spec: status `Available` of the governance package. -/
def GovernanceAvailable : GovernanceStatus := "available"

/-- Modelled from the spec: status `Unbinding` of the governance package. -/
def GovernanceUnbinding : GovernanceStatus := "unbinding"

/-- Modelled from the spec: status `Freezing` of the governance package. -/
def GovernanceFreezing : GovernanceStatus := "freezing"

/-- Modelled from the spec: status `Frozen` of the governance package. -/
def GovernanceFrozen : GovernanceStatus := "frozen"

/-- Modelled from the spec: status `Activating` of the governance package. -/
def GovernanceActivating : GovernanceStatus := "activating"

/-- Modelled from the spec: status `Logouting` of the governance package. -/
def GovernanceLogouting : GovernanceStatus := "logouting"

/-- Modelled from the spec: status `Forbidden` of the governance package. -/
def GovernanceForbidden : GovernanceStatus := "forbidden"

/-- Modelled from the spec: event `Bind` of the governance package (the spec's
scenario fires it as `"bind"`). -/
def EventBind : EventType := "bind"

/-- Modelled from the spec: event `Unbind` of the governance package. -/
def EventUnbind : EventType := "unbind"

/-- Modelled from the spec: event `Freeze` of the governance package. -/
def EventFreeze : EventType := "freeze"

/-- Modelled from the spec: event `Activate` of the governance package. -/
def EventActivate : EventType := "activate"

/-- Modelled from the spec: event `Logout` of the governance package. -/
def EventLogout : EventType := "logout"

/-- Modelled from the spec: event `Approve` of the governance package (the spec's
scenario fires it as `"approve"`). -/
def EventApprove : EventType := "approve"

/-- Modelled from the spec: event `Reject` of the governance package. -/
def EventReject : EventType := "reject"

/-! ## The state-machine library, as far as `setFSM` uses it -/

/-- One entry of `fsm.Events`: an event name, its source states, its destination. -/
structure EventDesc where
  Name : String
  Src : List String
  Dst : String
  deriving DecidableEq, Repr

/-- Errors `FSM.Event` can return when no callback fails. -/
inductive FSMError where
  | InvalidEventError (event state : String)
  | UnknownEventError (event : String)
  | NoTransitionError
  deriving DecidableEq, Repr

/-- Text of an error, as `err.Error()` gives it. -/
def FSMError.Error : FSMError → String
  | .InvalidEventError event state =>
      "event " ++ event ++ " inappropriate in current state " ++ state
  | .UnknownEventError event => "event " ++ event ++ " does not exist"
  | .NoTransitionError => "no transition"

/-- The machine: its current state and the map from (event, source) to
destination, kept as an association list whose head is the latest insertion. -/
structure FSM where
  current : String
  transitions : List ((String × String) × String)
  deriving DecidableEq, Repr

/-- Constructor `fsm.NewFSM`: every source of every event is entered in the
transition map in order, a later entry for the same key replacing an earlier one. -/
def NewFSM (initial : String) (events : List EventDesc) : FSM :=
  { current := initial
    transitions :=
      events.foldl
        (fun m e => e.Src.foldl (fun m src => ((e.Name, src), e.Dst) :: m) m) [] }

/-- Method `FSM.Event` without callbacks: look the pair (event, current state) up;
a missing pair is an error (of one kind when the event name occurs in the map,
of another when it does not), a destination equal to the current state is an
error, otherwise the machine moves to the destination. -/
def FSM.Event (f : FSM) (event : String) : Except FSMError FSM :=
  match f.transitions.lookup (event, f.current) with
  | none =>
      if f.transitions.any (fun t => t.1.1 == event) then
        .error (.InvalidEventError event f.current)
      else
        .error (.UnknownEventError event)
  | some dst =>
      if f.current = dst then .error .NoTransitionError
      else .ok { f with current := dst }

/-! ## Rule records -/

/-- Key prefix of the rule collections in the object store. -/
def RULEPREFIX : String := "rule-"

/-- A rule record (`Rule`), without its derived `FSM` field. -/
structure Rule where
  Address : String
  ChainId : String
  Master : Bool
  Status : GovernanceStatus
  deriving DecidableEq, Repr

/-- The event list `setFSM` passes to `fsm.NewFSM`. -/
def ruleEvents : List EventDesc :=
  [ -- bind 1
    ⟨EventBind, [GovernanceBindable, GovernanceFreezing, GovernanceLogouting], GovernanceBinding⟩,
    ⟨EventApprove, [GovernanceBinding], GovernanceAvailable⟩,
    ⟨EventReject, [GovernanceBinding], GovernanceBindable⟩,
    -- unbind 1
    ⟨EventUnbind, [GovernanceAvailable, GovernanceFreezing, GovernanceLogouting], GovernanceUnbinding⟩,
    ⟨EventApprove, [GovernanceUnbinding], GovernanceBindable⟩,
    ⟨EventReject, [GovernanceUnbinding], GovernanceAvailable⟩,
    -- freeze 2
    ⟨EventFreeze, [GovernanceAvailable, GovernanceBindable, GovernanceActivating,
      GovernanceBinding, GovernanceUnbinding, GovernanceLogouting], GovernanceFreezing⟩,
    ⟨EventApprove, [GovernanceFreezing], GovernanceFrozen⟩,
    ⟨EventReject, [GovernanceFreezing], GovernanceBindable⟩,
    -- active 1
    ⟨EventActivate, [GovernanceFrozen, GovernanceFreezing, GovernanceLogouting], GovernanceActivating⟩,
    ⟨EventApprove, [GovernanceActivating], GovernanceBindable⟩,
    ⟨EventReject, [GovernanceActivating], GovernanceFrozen⟩,
    -- logout 3
    ⟨EventLogout, [GovernanceAvailable, GovernanceBindable, GovernanceFrozen, GovernanceFreezing,
      GovernanceActivating, GovernanceBinding, GovernanceUnbinding], GovernanceLogouting⟩,
    ⟨EventApprove, [GovernanceLogouting], GovernanceForbidden⟩,
    ⟨EventReject, [GovernanceLogouting], GovernanceBindable⟩ ]

/-- Function `setFSM`: the machine of a record starts in the record's status. -/
def setFSM (rule : Rule) : FSM :=
  NewFSM rule.Status ruleEvents

/-- Firing `rule.FSM.Event(trigger)` right after `setFSM(rule)`: on success the
`enter_state` callback copies the machine's new current state into `Status`. -/
def fireEvent (rule : Rule) (trigger : String) : Except FSMError Rule :=
  match (setFSM rule).Event trigger with
  | .error err => .error err
  | .ok f => .ok { rule with Status := f.current }

/-! ## The object store -/

/-- Modelled from the spec: the Object Store collaborator (`g.Persister`), a
durable mapping from string key to a stored value; here the values are rule
collections. -/
abbrev Store := String → Option (List Rule)

/-- The store that holds nothing. -/
def emptyStore : Store := fun _ => none

/-- Modelled from the spec: `GetObject(key, &out) -> found`. -/
def GetObject (st : Store) (key : String) : Option (List Rule) := st key

/-- Modelled from the spec: `SetObject(key, value)`. -/
def SetObject (st : Store) (key : String) (value : List Rule) : Store :=
  fun k => if k = key then some value else st k

/-- Method `ruleKey`. -/
def ruleKey (id : String) : String := RULEPREFIX ++ id

/-! ## Operations -/

/-- Payload of `Register` before serialisation (`g.RegisterResult`). -/
structure RegisterResult where
  ID : String
  IsRegistered : Bool
  deriving DecidableEq, Repr

/-- Method `Register`: returns the store, the success flag and the result. -/
def Register (st : Store) (chainId ruleAddress : String) : Store × Bool × RegisterResult :=
  let loaded : List Rule × Bool :=
    match GetObject st (ruleKey chainId) with
    | some rules => (rules, rules.any (fun r => decide (ruleAddress = r.Address)))
    | none => ([], false)
  if !loaded.2 then
    (SetObject st (ruleKey chainId)
        (loaded.1 ++ [⟨ruleAddress, chainId, false, GovernanceBindable⟩]),
      true, ⟨ruleAddress, false⟩)
  else
    (st, true, ⟨ruleAddress, true⟩)

/-- The loop of `BindPre`: an early failure carries its message, a completed
loop returns `isExisted`. -/
def bindPreLoop (ruleAddress : String) (force : Bool) : List Rule → Bool → Except String Bool
  | [], isExisted => .ok isExisted
  | r :: rs, isExisted =>
      if ruleAddress = r.Address then
        if r.Status ≠ GovernanceBindable then
          .error ("The rule is in an unbindable state: " ++ r.Status)
        else
          bindPreLoop ruleAddress force rs true
      else if GovernanceAvailable = r.Status ∧ force = false then
        .error ("There is already a bound (available) validation rule. " ++
          "Please unbind the rule before binding other validation rules")
      else if r.Master = true ∧ GovernanceAvailable ≠ r.Status then
        .error ("The master rule is changing(" ++ r.Status ++
          ") now. Please wait until the proposal close before binding new rule")
      else
        bindPreLoop ruleAddress force rs isExisted

/-- Method `BindPre`: a read-only check; returns the flag and the message. -/
def BindPre (st : Store) (chainId ruleAddress : String) (force : Bool) : Bool × String :=
  match GetObject st (ruleKey chainId) with
  | none => (false, "this appchain's rules do not exist")
  | some rules =>
      match bindPreLoop ruleAddress force rules false with
      | .error msg => (false, msg)
      | .ok isExisted =>
          if !isExisted then (false, "the rule does not exist ") else (true, "")

/-- The loop of `SetMaster`: sets the flag of every record with the address. -/
def setMasterLoop (ruleAddress : String) (master : Bool) : List Rule → Bool → List Rule × Bool
  | [], flag => ([], flag)
  | r :: rs, flag =>
      if ruleAddress = r.Address then
        let rest := setMasterLoop ruleAddress master rs true
        ({ r with Master := master } :: rest.1, rest.2)
      else
        let rest := setMasterLoop ruleAddress master rs flag
        (r :: rest.1, rest.2)

/-- Method `SetMaster`. -/
def SetMaster (st : Store) (ruleAddress chainId : String) (master : Bool) :
    Store × Bool × String :=
  match GetObject st (ruleKey chainId) with
  | none => (st, false, "this appchain's rules do not exist")
  | some rules =>
      let res := setMasterLoop ruleAddress master rules false
      if !res.2 then (st, false, "the rule does not exist ")
      else (SetObject st (ruleKey chainId) res.1, true, "")

/-- The loop of `ChangeStatus`: fires the event on every record with the
address, stopping at the first error. -/
def changeStatusLoop (ruleAddress trigger : String) :
    List Rule → Bool → Except FSMError (List Rule × Bool)
  | [], flag => .ok ([], flag)
  | r :: rs, flag =>
      if ruleAddress = r.Address then
        match fireEvent r trigger with
        | .error err => .error err
        | .ok r' =>
            match changeStatusLoop ruleAddress trigger rs true with
            | .error err => .error err
            | .ok rest => .ok (r' :: rest.1, rest.2)
      else
        match changeStatusLoop ruleAddress trigger rs flag with
        | .error err => .error err
        | .ok rest => .ok (r :: rest.1, rest.2)

/-- Method `ChangeStatus`. -/
def ChangeStatus (st : Store) (ruleAddress trigger chainId : String) :
    Store × Bool × String :=
  match GetObject st (ruleKey chainId) with
  | none => (st, false, "this appchain's rules do not exist")
  | some rules =>
      match changeStatusLoop ruleAddress trigger rules false with
      | .error err => (st, false, "change status error: " ++ err.Error)
      | .ok res =>
          if !res.2 then (st, false, "the rule does not exist ")
          else (SetObject st (ruleKey chainId) res.1, true, "")

/-! ## Queries -/

/-- Payload of a query that returns a record: a message, or the record handed to
`json.Marshal` (serialising a record and reading it back gives the record). -/
inductive Payload where
  | text (s : String)
  | rule (r : Rule)
  deriving DecidableEq, Repr

/-- The text of a payload, as `string(data)` gives it; the serialised form of a
record is not modelled. -/
def Payload.toText : Payload → String
  | .text s => s
  | .rule _ => ""

/-- Function `strconv.Itoa` on a count: its decimal digits. -/
def Itoa (n : Nat) : String := toString n

/-- Method `CountAvailable`. -/
def CountAvailable (st : Store) (chainId : String) : Bool × String :=
  match GetObject st (ruleKey chainId) with
  | none => (true, Itoa 0)
  | some rules =>
      (true, Itoa (rules.foldl
        (fun count r => if GovernanceAvailable = r.Status then count + 1 else count) 0))

/-- Method `CountAll`. -/
def CountAll (st : Store) (chainId : String) : Bool × String :=
  match GetObject st (ruleKey chainId) with
  | none => (true, Itoa 0)
  | some rules => (true, Itoa rules.length)

/-- Method `QueryById`: the first record with the address. -/
def QueryById (st : Store) (ruleAddress chainId : String) : Bool × Payload :=
  match GetObject st (ruleKey chainId) with
  | none => (false, .text "this appchain's rules do not exist")
  | some rules =>
      match rules.find? (fun r => decide (ruleAddress = r.Address)) with
      | some r => (true, .rule r)
      | none => (false, .text "this rule does not exist")

/-- Method `GetAvailableRuleAddress`: the address of the first available record. -/
def GetAvailableRuleAddress (st : Store) (chainId : String) : Bool × String :=
  match GetObject st (ruleKey chainId) with
  | none => (false, "this appchain's rules do not exist")
  | some rules =>
      match rules.find? (fun r => decide (GovernanceAvailable = r.Status)) with
      | some r => (true, r.Address)
      | none => (false, "this appchain's available rule does not exist")

/-- Method `GetMaster`: the first record whose master flag is set. -/
def GetMaster (st : Store) (chainId : String) : Bool × Payload :=
  match GetObject st (ruleKey chainId) with
  | none => (false, .text "this appchain's rules do not exist")
  | some rules =>
      match rules.find? (fun r => decide (true = r.Master)) with
      | some r => (true, .rule r)
      | none => (false, .text "this appchain's master rule does not exist")

/-- Method `HasMaster`. -/
def HasMaster (st : Store) (chainId : String) : Bool :=
  match GetObject st (ruleKey chainId) with
  | none => false
  | some rules => rules.any (fun r => decide (true = r.Master))

/-- Method `IsAvailable`: `QueryById`, then the status of the record read back
from the returned data. -/
def IsAvailable (st : Store) (chainId ruleAddress : String) : Bool × String :=
  match QueryById st ruleAddress chainId with
  | (false, data) => (false, "get rule info error: " ++ data.toText)
  | (true, .text data) => (false, "unmarshal rule error: " ++ data)
  | (true, .rule rule) =>
      if rule.Status ≠ GovernanceAvailable then
        (false, "the rule status is " ++ rule.Status)
      else (true, "")

/-! ## The transition table of the specification -/

/-- The transition table as the specification prints it: one row per event
name, with its valid source states and its destination. -/
def specRows : List (EventType × List GovernanceStatus × GovernanceStatus) :=
  [ (EventBind, [GovernanceBindable, GovernanceFreezing, GovernanceLogouting], GovernanceBinding),
    (EventApprove, [GovernanceBinding], GovernanceAvailable),
    (EventReject, [GovernanceBinding], GovernanceBindable),
    (EventUnbind, [GovernanceAvailable, GovernanceFreezing, GovernanceLogouting],
      GovernanceUnbinding),
    (EventApprove, [GovernanceUnbinding], GovernanceBindable),
    (EventReject, [GovernanceUnbinding], GovernanceAvailable),
    (EventFreeze, [GovernanceAvailable, GovernanceBindable, GovernanceActivating,
      GovernanceBinding, GovernanceUnbinding, GovernanceLogouting], GovernanceFreezing),
    (EventApprove, [GovernanceFreezing], GovernanceFrozen),
    (EventReject, [GovernanceFreezing], GovernanceBindable),
    (EventActivate, [GovernanceFrozen, GovernanceFreezing, GovernanceLogouting],
      GovernanceActivating),
    (EventApprove, [GovernanceActivating], GovernanceBindable),
    (EventReject, [GovernanceActivating], GovernanceFrozen),
    (EventLogout, [GovernanceAvailable, GovernanceBindable, GovernanceFrozen,
      GovernanceFreezing, GovernanceActivating, GovernanceBinding, GovernanceUnbinding],
      GovernanceLogouting),
    (EventApprove, [GovernanceLogouting], GovernanceForbidden),
    (EventReject, [GovernanceLogouting], GovernanceBindable) ]

/-- Destination the specification's table gives for a state and an event name:
that of the row with this event name whose source states contain the state,
`none` when there is no such row. -/
def specTable (s : GovernanceStatus) (e : EventType) : Option GovernanceStatus :=
  (specRows.find? (fun row => decide (row.1 = e) && decide (s ∈ row.2.1))).map (fun row => row.2.2)

/-- The event names of the specification's table. -/
def specEvents : List EventType :=
  [EventBind, EventUnbind, EventFreeze, EventActivate, EventLogout, EventApprove, EventReject]

/-- The transition map `setFSM` builds (it does not depend on the initial state). -/
def transitionList : List ((String × String) × String) :=
  (NewFSM "" ruleEvents).transitions

/-! ## Sequences of calls -/

/-- A mutating call of the manager with its arguments. -/
inductive Call where
  | register (chainId ruleAddress : String)
  | setMaster (ruleAddress chainId : String) (master : Bool)
  | changeStatus (ruleAddress trigger chainId : String)
  deriving DecidableEq, Repr

/-- The store a call leaves. -/
def Call.exec (st : Store) : Call → Store
  | .register chainId ruleAddress => (Register st chainId ruleAddress).1
  | .setMaster ruleAddress chainId master => (SetMaster st ruleAddress chainId master).1
  | .changeStatus ruleAddress trigger chainId => (ChangeStatus st ruleAddress trigger chainId).1

/-- The store a sequence of calls leaves. -/
def runCalls (st : Store) (calls : List Call) : Store :=
  calls.foldl Call.exec st

/-- Every `ChangeStatus` call of the sequence that fires the bind event is made in
a state where `BindPre` without force succeeds for its chain and address. -/
def bindsGuarded (st : Store) : List Call → Bool
  | [] => true
  | call :: calls =>
      (match call with
        | .changeStatus ruleAddress trigger chainId =>
            if trigger = EventBind then (BindPre st chainId ruleAddress false).1 else true
        | _ => true) &&
      bindsGuarded (call.exec st) calls

/-- Number of records of a collection whose status is available. -/
def availableCount (rules : List Rule) : Nat :=
  rules.countP (fun r => decide (r.Status = GovernanceAvailable))

/-- No chain's collection holds two records with the same address. -/
def UniqueAddresses (st : Store) : Prop :=
  ∀ chainId rules, GetObject st (ruleKey chainId) = some rules →
    (rules.map Rule.Address).Nodup

/-! ## Example stores -/

/-- A store whose only collection holds one bindable record. -/
def oneRuleStore : Store :=
  SetObject emptyStore (ruleKey "chainA") [⟨"0xAB", "chainA", false, GovernanceBindable⟩]

/-- A store reached from the empty one: three rules are registered, the second
is bound and approved, the third is made master while still bindable. -/
def masterPendingStore : Store :=
  runCalls emptyStore
    [.register "chainA" "0xAB", .register "chainA" "0xCD", .register "chainA" "0xEF",
     .changeStatus "0xCD" EventBind "chainA", .changeStatus "0xCD" EventApprove "chainA",
     .setMaster "0xEF" "chainA" true]

/-- The collection of `masterPendingStore`. -/
def masterPendingRules : List Rule :=
  [⟨"0xAB", "chainA", false, GovernanceBindable⟩,
   ⟨"0xCD", "chainA", false, GovernanceAvailable⟩,
   ⟨"0xEF", "chainA", true, GovernanceBindable⟩]

/-- Two rules are registered, each is bound while the other is not yet
available, and both bindings are approved. -/
def twoBindsCalls : List Call :=
  [.register "chainA" "0xAB", .register "chainA" "0xCD",
   .changeStatus "0xAB" EventBind "chainA", .changeStatus "0xCD" EventBind "chainA",
   .changeStatus "0xAB" EventApprove "chainA", .changeStatus "0xCD" EventApprove "chainA"]

/-- Two rules are registered and the first is bound and approved; the second is
then frozen, unbound while freezing, and the unbinding is rejected. The only
bind event of the sequence is the first one. -/
def rejectedUnbindCalls : List Call :=
  [.register "chainA" "0xAB", .register "chainA" "0xCD",
   .changeStatus "0xAB" EventBind "chainA", .changeStatus "0xAB" EventApprove "chainA",
   .changeStatus "0xCD" EventFreeze "chainA", .changeStatus "0xCD" EventUnbind "chainA",
   .changeStatus "0xCD" EventReject "chainA"]

/-- A store reached from the empty one: a rule is registered and made master. -/
def masterStore : Store :=
  runCalls emptyStore [.register "chainA" "0xAB", .setMaster "0xAB" "chainA" true]

/-- A store reached from the empty one: `0xCD` and then `0xAB` are registered,
and `0xCD` is made master. -/
def olderMasterStore : Store :=
  runCalls emptyStore
    [.register "chainA" "0xCD", .register "chainA" "0xAB", .setMaster "0xCD" "chainA" true]

/-- The scenario of the specification, step one: `0xAB` is registered for
`chainA` in the empty store. -/
def scenarioRegistered : Store := (Register emptyStore "chainA" "0xAB").1

/-- The scenario, step two: the bind event is fired on `0xAB`. -/
def scenarioBinding : Store := (ChangeStatus scenarioRegistered "0xAB" "bind" "chainA").1

/-- The scenario, step three: the approve event is fired on `0xAB`. -/
def scenarioAvailable : Store := (ChangeStatus scenarioBinding "0xAB" "approve" "chainA").1

end RuleMgr

/-! # Proof verifier

A shallow embedding of `validator/fabric_simple_validator.go`. Byte slices are
strings. The functions `Verify` calls outside the file (proof extraction, PEM,
X.509, ASN.1, SHA-256 and ECDSA) are the fields of a structure the model takes
as a parameter. A call either returns its pair or stops with a runtime panic;
the key cache `pkMap` is passed in and returned.
-/

namespace Validator

/-- An entry of the signature set (`protoutil.SignedData`). -/
structure SignedData where
  Data : String
  Identity : String
  Signature : String
  deriving DecidableEq, Repr

/-- The `PublicKey` field of a parsed certificate, an `interface{}`: an ECDSA
public key, or anything else (a key of another algorithm, or nil). -/
inductive CertKey (PK : Type) where
  | ecdsa (pk : PK)
  | other
  deriving DecidableEq, Repr

/-- The functions `Verify` and `unmarshalECDSASignature` call outside the file.
`PreCheck` and `GetSignatureSet` are those of `validatorlib`; `pemDecode` is the
first result of `pem.Decode` (`none` for a nil block, otherwise the bytes of the
block); `ParseCertificate` gives the public key of the parsed certificate;
`asn1Unmarshal` gives the fields `R` and `S` of the decoded signature (`none`
for a nil pointer); `sha256` is the digest `h.Sum(nil)` after `h.Write`;
`ecdsaVerify` is `ecdsa.Verify`. -/
structure Lib (Artifact PK : Type) where
  PreCheck : String → String → String → Except String Artifact
  GetSignatureSet : Artifact → List SignedData
  pemDecode : String → Option String
  ParseCertificate : String → Except String (CertKey PK)
  asn1Unmarshal : String → Except String (Option Int × Option Int)
  sha256 : String → String
  ecdsaVerify : PK → String → Int → Int → Bool

/-- What a call of `Verify` does: it returns `(isValid, err)`, with `none` for a
nil error, or it stops with a runtime panic. -/
inductive Outcome where
  | ret (isValid : Bool) (err : Option String)
  | panic (cause : String)
  deriving DecidableEq, Repr

/-- The key cache `pkMap`: from sender to public key. -/
abbrev KeyCache (PK : Type) := String → Option PK

/-- The cache with one more entry (`vlt.pkMap[from] = pk`). -/
def KeyCache.set {PK : Type} (pkMap : KeyCache PK) (sender : String) (pk : PK) : KeyCache PK :=
  fun k => if k = sender then some pk else pkMap k

/-- Function `unmarshalECDSASignature`. -/
def unmarshalECDSASignature {Artifact PK : Type} (lib : Lib Artifact PK) (raw : String) :
    Except String (Int × Int) :=
  match lib.asn1Unmarshal raw with
  | .error err => .error ("failed unmashalling signature [" ++ err ++ "]")
  | .ok (R, S) =>
      match R with
      | none => .error "invalid signature, r must be different from nil"
      | some r =>
          match S with
          | none => .error "invalid signature, s must be different from nil"
          | some s =>
              if r.sign ≠ 1 then .error "invalid signature, r must be larger than zero"
              else if s.sign ≠ 1 then .error "invalid signature, s must be larger than zero"
              else .ok (r, s)

/-- The key resolution inside `Verify`: the cached key of the sender, or on a
miss the ECDSA key of the certificate in `validators`, which is then cached.
A failure is the outcome `Verify` ends with. -/
def resolveKey {Artifact PK : Type} (lib : Lib Artifact PK) (pkMap : KeyCache PK)
    (sender validators : String) : Except Outcome (PK × KeyCache PK) :=
  match pkMap sender with
  | some pk => .ok (pk, pkMap)
  | none =>
      match lib.pemDecode validators with
      | none => .error (.panic "invalid memory address or nil pointer dereference")
      | some der =>
          match lib.ParseCertificate der with
          | .error err => .error (.ret false (some err))
          | .ok .other => .error (.panic "interface conversion: not *ecdsa.PublicKey")
          | .ok (.ecdsa pk) => .ok (pk, pkMap.set sender pk)

/-- Method `Verify`; `sender` is its parameter `from`, and `_address` its unused
parameter `address`. Returns the outcome and the key cache the call leaves. -/
def Verify {Artifact PK : Type} (lib : Lib Artifact PK) (pkMap : KeyCache PK)
    (_address sender proof payload validators : String) : Outcome × KeyCache PK :=
  match lib.PreCheck proof payload "broker" with
  | .error err => (.ret false (some err), pkMap)
  | .ok artifact =>
      let signatureSet := lib.GetSignatureSet artifact
      match resolveKey lib pkMap sender validators with
      | .error out => (out, pkMap)
      | .ok (pk, pkMap') =>
          match signatureSet with
          | [] => (.panic "index out of range [0] with length 0", pkMap')
          | first :: _ =>
              match unmarshalECDSASignature lib first.Signature with
              | .error err => (.ret false (some err), pkMap')
              | .ok (r, s) =>
                  (.ret (lib.ecdsaVerify pk (lib.sha256 first.Data) r s) none, pkMap')

/-- A stand-in for the outside functions, used to run `Verify` on examples: the
proof is the signature, the payload the signed data, a certificate is its key,
and a signature verifies when the key equals the digest. -/
def stubLib : Lib (List SignedData) String where
  PreCheck := fun proof payload _ =>
    if proof = "" then .error "bad proof"
    else if proof = "empty" then .ok []
    else .ok [⟨payload, "", proof⟩]
  GetSignatureSet := fun artifact => artifact
  pemDecode := fun validators => if validators = "" then none else some validators
  ParseCertificate := fun der =>
    if der = "junk" then .error "malformed certificate"
    else if der = "rsa" then .ok .other
    else .ok (.ecdsa der)
  asn1Unmarshal := fun raw =>
    if raw = "bad" then .error "asn1: structure error"
    else if raw = "zero" then .ok (some 0, some 1)
    else .ok (some 1, some 1)
  sha256 := fun data => data
  ecdsaVerify := fun pk digest _ _ => decide (pk = digest)

/-- The empty key cache. -/
def emptyCache : KeyCache String := fun _ => none

end Validator

/-! # Theorems -/

namespace RuleMgr

/-! ## The object store -/

theorem GetObject_SetObject_same (st : Store) (key : String) (value : List Rule) :
    GetObject (SetObject st key value) key = some value := by
  simp [GetObject, SetObject]

theorem GetObject_SetObject_other (st : Store) (key k : String) (value : List Rule)
    (h : k ≠ key) : GetObject (SetObject st key value) k = GetObject st k := by
  simp [GetObject, SetObject, h]

theorem ruleKey_injective {a b : String} (h : ruleKey a = ruleKey b) : a = b := by
  unfold ruleKey at h
  have h' := congrArg String.data h
  simp only [String.data_append] at h'
  exact String.ext (List.append_cancel_left h')

/-! ## The machine of `setFSM` and the table -/

theorem setFSM_transitions (r : Rule) : (setFSM r).transitions = transitionList := rfl

theorem setFSM_current (r : Rule) : (setFSM r).current = r.Status := rfl

/-- In an association list without repeated keys, `lookup` finds exactly the
pairs of the list. -/
theorem lookup_eq_some_iff_mem {α β : Type} [BEq α] [LawfulBEq α] (l : List (α × β))
    (hl : (l.map Prod.fst).Nodup) (k : α) (v : β) :
    l.lookup k = some v ↔ (k, v) ∈ l := by
  induction l with
  | nil => simp
  | cons p ps ih =>
    obtain ⟨a, b⟩ := p
    simp only [List.map_cons, List.nodup_cons, List.mem_map, not_exists, not_and] at hl
    by_cases hk : k = a
    · subst hk
      have hnot : ∀ w, (k, w) ∉ ps := fun w hw => hl.1 (k, w) hw rfl
      simp [List.lookup, hnot]
      exact eq_comm
    · have hne : (k == a) = false := by simpa using hk
      simp [List.lookup, hne, hk, ih hl.2]

theorem transitionList_nodup : (transitionList.map Prod.fst).Nodup := by
  decide

theorem transitionList_sound :
    ∀ t ∈ transitionList, specTable t.1.2 t.1.1 = some t.2 := by
  decide

theorem transitionList_complete :
    ∀ row ∈ specRows, ∀ s ∈ row.2.1, ((row.1, s), row.2.2) ∈ transitionList := by
  decide

theorem transitionList_no_loop : ∀ t ∈ transitionList, t.1.2 ≠ t.2 := by
  decide

theorem transitionList_events : ∀ t ∈ transitionList, t.1.1 ∈ specEvents := by
  decide

theorem mem_transitionList_iff (s e d : String) :
    ((e, s), d) ∈ transitionList ↔ specTable s e = some d := by
  constructor
  · intro h
    exact transitionList_sound _ h
  · intro h
    unfold specTable at h
    obtain ⟨row, hfind, hd⟩ := Option.map_eq_some'.mp h
    have hmem : row ∈ specRows := List.mem_of_find?_eq_some hfind
    have hp := List.find?_some hfind
    simp only [Bool.and_eq_true, decide_eq_true_eq] at hp
    have := transitionList_complete row hmem s hp.2
    rw [hp.1, hd] at this
    exact this

/-- The transition map of `setFSM` is the specification's table. -/
theorem lookup_transitionList (s e : String) :
    transitionList.lookup (e, s) = specTable s e := by
  apply Option.ext
  intro d
  simp only [Option.mem_def]
  rw [lookup_eq_some_iff_mem _ transitionList_nodup, mem_transitionList_iff]

theorem specTable_ne_self {s e d : String} (h : specTable s e = some d) : s ≠ d :=
  transitionList_no_loop _ ((mem_transitionList_iff s e d).mpr h)

theorem specTable_event_mem {s e d : String} (h : specTable s e = some d) : e ∈ specEvents :=
  transitionList_events _ ((mem_transitionList_iff s e d).mpr h)

theorem fireEvent_of_some {r : Rule} {e d : String} (h : specTable r.Status e = some d) :
    fireEvent r e = .ok { r with Status := d } := by
  have hne := specTable_ne_self h
  simp [fireEvent, FSM.Event, setFSM_transitions, setFSM_current, lookup_transitionList, h, hne]

theorem fireEvent_of_none {r : Rule} {e : String} (h : specTable r.Status e = none) :
    ∃ err, fireEvent r e = .error err := by
  simp only [fireEvent, FSM.Event, setFSM_transitions, setFSM_current, lookup_transitionList, h]
  split_ifs <;> exact ⟨_, rfl⟩

theorem specTable_forbidden (e : String) : specTable GovernanceForbidden e = none := by
  cases h : specTable GovernanceForbidden e with
  | none => rfl
  | some d =>
    have hmem := (mem_transitionList_iff GovernanceForbidden e d).mpr h
    have hall : ∀ t ∈ transitionList, t.1.2 ≠ GovernanceForbidden := by decide
    exact absurd rfl (hall _ hmem)

/-! ## The loops -/

theorem changeStatusLoop_ok (A e : String) (rules : List Rule) (flag : Bool)
    (h : ∀ r ∈ rules, r.Address = A → ∃ d, specTable r.Status e = some d) :
    changeStatusLoop A e rules flag =
      .ok (rules.map (fun r =>
            if A = r.Address then { r with Status := (specTable r.Status e).getD r.Status }
            else r),
          flag || rules.any (fun r => decide (A = r.Address))) := by
  induction rules generalizing flag with
  | nil => simp [changeStatusLoop]
  | cons r rs ih =>
    have hrs : ∀ x ∈ rs, x.Address = A → ∃ d, specTable x.Status e = some d :=
      fun x hx => h x (List.mem_cons_of_mem _ hx)
    by_cases hA : A = r.Address
    · obtain ⟨d, hd⟩ := h r (List.mem_cons_self _ _) hA.symm
      rw [changeStatusLoop, if_pos hA, fireEvent_of_some hd]
      simp only [ih true hrs]
      simp [hA, hd]
    · simp [changeStatusLoop, hA, ih _ hrs]

theorem changeStatusLoop_error (A e : String) (rules : List Rule) (flag : Bool)
    (h : ∃ r ∈ rules, r.Address = A ∧ specTable r.Status e = none) :
    ∃ err, changeStatusLoop A e rules flag = .error err := by
  induction rules generalizing flag with
  | nil => simp at h
  | cons r rs ih =>
    obtain ⟨x, hx, hxA, hxn⟩ := h
    by_cases hA : A = r.Address
    · cases hs : specTable r.Status e with
      | none =>
        obtain ⟨err, herr⟩ := fireEvent_of_none hs
        exact ⟨err, by simp [changeStatusLoop, hA, herr]⟩
      | some d =>
        have hx' : x ∈ rs := by
          rcases List.mem_cons.mp hx with rfl | hx'
          · rw [hs] at hxn; cases hxn
          · exact hx'
        obtain ⟨err, herr⟩ := ih true ⟨x, hx', hxA, hxn⟩
        refine ⟨err, ?_⟩
        rw [changeStatusLoop, if_pos hA, fireEvent_of_some hs]
        simp only [herr]
    · have hx' : x ∈ rs := by
        rcases List.mem_cons.mp hx with rfl | hx'
        · exact absurd hxA.symm hA
        · exact hx'
      obtain ⟨err, herr⟩ := ih flag ⟨x, hx', hxA, hxn⟩
      refine ⟨err, ?_⟩
      rw [changeStatusLoop, if_neg hA]
      simp only [herr]

/-- Either every record with the address has a row in the table for the event,
or one of them has none. -/
theorem legal_or_illegal (A e : String) (rules : List Rule) :
    (∀ r ∈ rules, r.Address = A → ∃ d, specTable r.Status e = some d) ∨
    (∃ r ∈ rules, r.Address = A ∧ specTable r.Status e = none) := by
  by_cases h : ∃ r ∈ rules, r.Address = A ∧ specTable r.Status e = none
  · exact Or.inr h
  · left
    intro r hr hA
    cases hs : specTable r.Status e with
    | none => exact absurd ⟨r, hr, hA, hs⟩ h
    | some d => exact ⟨d, rfl⟩

/-- A failed `ChangeStatus` returns the store it was given. -/
theorem ChangeStatus_store_of_fail (st : Store) (A e chainId : String)
    (h : (ChangeStatus st A e chainId).2.1 = false) : (ChangeStatus st A e chainId).1 = st := by
  unfold ChangeStatus at h ⊢
  cases hg : GetObject st (ruleKey chainId) with
  | none => simp
  | some rules =>
    simp only [hg] at h ⊢
    cases hl : changeStatusLoop A e rules false with
    | error err => simp
    | ok res =>
      simp only [hl] at h ⊢
      by_cases hf : res.2 = true
      · simp [hf] at h
      · simp [hf]

/-- The outcome of `ChangeStatus` when the address is present and every record
with the address has a row for the event. -/
theorem ChangeStatus_eq_of_legal (st : Store) (A e chainId : String) (rules : List Rule)
    (hget : GetObject st (ruleKey chainId) = some rules)
    (hmem : ∃ r ∈ rules, r.Address = A)
    (hlegal : ∀ r ∈ rules, r.Address = A → ∃ d, specTable r.Status e = some d) :
    ChangeStatus st A e chainId =
      (SetObject st (ruleKey chainId) (rules.map (fun r =>
          if A = r.Address then { r with Status := (specTable r.Status e).getD r.Status }
          else r)), true, "") := by
  have hany : rules.any (fun r => decide (A = r.Address)) = true := by
    obtain ⟨r, hr, hA⟩ := hmem
    exact List.any_eq_true.mpr ⟨r, hr, by simp [hA]⟩
  have hloop := changeStatusLoop_ok A e rules false hlegal
  simp [ChangeStatus, hget, hloop, hany]

/-- The outcome of `ChangeStatus` in general: the store is returned as it was,
or the call is one of those `ChangeStatus_eq_of_legal` describes. -/
theorem ChangeStatus_cases (st : Store) (A e chainId : String) :
    ((ChangeStatus st A e chainId).2.1 = false ∧ (ChangeStatus st A e chainId).1 = st) ∨
    ∃ rules, GetObject st (ruleKey chainId) = some rules ∧
      (∃ r ∈ rules, r.Address = A) ∧
      (∀ r ∈ rules, r.Address = A → ∃ d, specTable r.Status e = some d) ∧
      ChangeStatus st A e chainId =
        (SetObject st (ruleKey chainId) (rules.map (fun r =>
            if A = r.Address then { r with Status := (specTable r.Status e).getD r.Status }
            else r)), true, "") := by
  by_cases hf : (ChangeStatus st A e chainId).2.1 = false
  · exact Or.inl ⟨hf, ChangeStatus_store_of_fail st A e chainId hf⟩
  · right
    cases hg : GetObject st (ruleKey chainId) with
    | none => exact absurd (by simp [ChangeStatus, hg]) hf
    | some rules =>
      refine ⟨rules, rfl, ?_⟩
      rcases legal_or_illegal A e rules with hlegal | hill
      · by_cases hmem : ∃ r ∈ rules, r.Address = A
        · exact ⟨hmem, hlegal, ChangeStatus_eq_of_legal st A e chainId rules hg hmem hlegal⟩
        · exfalso
          apply hf
          have hany : rules.any (fun r => decide (A = r.Address)) = false := by
            rw [List.any_eq_false]
            intro r hr
            simpa using fun h => hmem ⟨r, hr, h.symm⟩
          simp [ChangeStatus, hg, changeStatusLoop_ok A e rules false hlegal, hany]
      · exfalso
        apply hf
        obtain ⟨err, herr⟩ := changeStatusLoop_error A e rules false hill
        simp [ChangeStatus, hg, herr]

/-! ## Status changes -/

/-- When the chain's collection contains a record with address `A` and every
record with address `A` has a status from which the event has a row in the
transition table, `ChangeStatus` succeeds and the persisted collection is the
old one, record by record, with the same address, chain and master flag, where
the status of each record with address `A` is the destination the table gives
for its old status and the event, and the status of every other record is
unchanged. -/
theorem ChangeStatus_all_legal (st : Store) (A e chainId : String) (rules : List Rule)
    (hget : GetObject st (ruleKey chainId) = some rules)
    (hmem : ∃ r ∈ rules, r.Address = A)
    (hlegal : ∀ r ∈ rules, r.Address = A → ∃ d, specTable r.Status e = some d) :
    (ChangeStatus st A e chainId).2.1 = true ∧
    ∃ rules', GetObject (ChangeStatus st A e chainId).1 (ruleKey chainId) = some rules' ∧
      List.Forall₂
        (fun r r' => r'.Address = r.Address ∧ r'.ChainId = r.ChainId ∧ r'.Master = r.Master ∧
          (r.Address = A → specTable r.Status e = some r'.Status) ∧
          (r.Address ≠ A → r'.Status = r.Status))
        rules rules' := by
  have hcs := ChangeStatus_eq_of_legal st A e chainId rules hget hmem hlegal
  rw [hcs]
  refine ⟨rfl, _, GetObject_SetObject_same _ _ _, ?_⟩
  rw [List.forall₂_map_right_iff, List.forall₂_same]
  intro r hr
  by_cases hA : A = r.Address
  · obtain ⟨d, hd⟩ := hlegal r hr hA.symm
    simp [hA, hd]
  · have hA' : r.Address ≠ A := fun h => hA h.symm
    simp [hA, hA']

/-- C2: `ChangeStatus` fails and returns the store unchanged whenever the chain
has no collection, or no record has the address, or the event name is not one
of the table, or some record with the address has a status from which the event
has no row in the table, or some record with the address is forbidden. -/
theorem ChangeStatus_fails (st : Store) (A e chainId : String)
    (h : GetObject st (ruleKey chainId) = none ∨
      ∃ rules, GetObject st (ruleKey chainId) = some rules ∧
        ((∀ r ∈ rules, r.Address ≠ A) ∨ e ∉ specEvents ∨
          (∃ r ∈ rules, r.Address = A ∧ specTable r.Status e = none) ∨
          (∃ r ∈ rules, r.Address = A ∧ r.Status = GovernanceForbidden))) :
    (ChangeStatus st A e chainId).2.1 = false ∧ (ChangeStatus st A e chainId).1 = st := by
  have key : (ChangeStatus st A e chainId).2.1 = false := by
    rcases h with hnone | ⟨rules, hget, hcase⟩
    · simp [ChangeStatus, hnone]
    · have habsent : (∀ r ∈ rules, r.Address ≠ A) →
          (ChangeStatus st A e chainId).2.1 = false := by
        intro hab
        have hl := changeStatusLoop_ok A e rules false (fun r hr hA => absurd hA (hab r hr))
        have hany : rules.any (fun r => decide (A = r.Address)) = false := by
          rw [List.any_eq_false]
          intro r hr
          simpa using fun h => hab r hr h.symm
        simp [ChangeStatus, hget, hl, hany]
      have hillegal : (∃ r ∈ rules, r.Address = A ∧ specTable r.Status e = none) →
          (ChangeStatus st A e chainId).2.1 = false := by
        intro hex
        obtain ⟨err, herr⟩ := changeStatusLoop_error A e rules false hex
        simp [ChangeStatus, hget, herr]
      rcases hcase with hab | hev | hill | ⟨r, hr, hA, hF⟩
      · exact habsent hab
      · by_cases hab : ∀ r ∈ rules, r.Address ≠ A
        · exact habsent hab
        · push_neg at hab
          obtain ⟨r, hr, hA⟩ := hab
          refine hillegal ⟨r, hr, hA, ?_⟩
          cases hs : specTable r.Status e with
          | none => rfl
          | some d => exact absurd (specTable_event_mem hs) hev
      · exact hillegal hill
      · exact hillegal ⟨r, hr, hA, by rw [hF]; exact specTable_forbidden e⟩
  exact ⟨key, ChangeStatus_store_of_fail st A e chainId key⟩

/-- Witness for C2: an event name that the table does not know, fired on the
single bindable record. -/
theorem ChangeStatus_fails_witness :
    (ChangeStatus oneRuleStore "0xAB" "revoke" "chainA").2.1 = false ∧
      (ChangeStatus oneRuleStore "0xAB" "revoke" "chainA").1 = oneRuleStore :=
  ChangeStatus_fails oneRuleStore "0xAB" "revoke" "chainA"
    (Or.inr ⟨[⟨"0xAB", "chainA", false, GovernanceBindable⟩], by decide,
      Or.inr (Or.inl (by decide))⟩)

/-! ## The bind precondition -/

/-- What the loop of `BindPre` accepts in one record. -/
theorem bindPreLoop_ok_iff (A : String) (force : Bool) (rules : List Rule) (ex b : Bool) :
    bindPreLoop A force rules ex = .ok b ↔
      (∀ r ∈ rules, (r.Address = A → r.Status = GovernanceBindable) ∧
        (r.Address ≠ A → (r.Status = GovernanceAvailable → force = true) ∧
          ¬ (r.Master = true ∧ r.Status ≠ GovernanceAvailable))) ∧
      b = (ex || rules.any (fun r => decide (A = r.Address))) := by
  induction rules generalizing ex with
  | nil =>
    simp only [bindPreLoop, Except.ok.injEq, List.not_mem_nil, false_implies, implies_true,
      List.any_nil, Bool.or_false, true_and]
    exact eq_comm
  | cons r rs ih =>
    by_cases hA : A = r.Address
    · have hA' : r.Address = A := hA.symm
      by_cases hS : r.Status = GovernanceBindable
      · rw [bindPreLoop, if_pos hA, if_neg (not_not.mpr hS), ih]
        simp [hA', hS]
      · rw [bindPreLoop, if_pos hA, if_pos hS]
        simp [hA', hS]
    · have hA' : r.Address ≠ A := fun h => hA h.symm
      by_cases h1 : GovernanceAvailable = r.Status ∧ force = false
      · rw [bindPreLoop, if_neg hA, if_pos h1]
        simp [hA', h1.1.symm, h1.2]
      · by_cases h2 : r.Master = true ∧ GovernanceAvailable ≠ r.Status
        · rw [bindPreLoop, if_neg hA, if_neg h1, if_pos h2]
          have h2' : r.Status ≠ GovernanceAvailable := fun h => h2.2 h.symm
          simp [hA', h2.1, h2']
        · rw [bindPreLoop, if_neg hA, if_neg h1, if_neg h2, ih]
          have e1 : (r.Status = GovernanceAvailable → force = true) := by
            intro h
            by_contra hf
            exact h1 ⟨h.symm, by simpa using hf⟩
          have e2 : ¬ (r.Master = true ∧ r.Status ≠ GovernanceAvailable) :=
            fun h => h2 ⟨h.1, fun h' => h.2 h'.symm⟩
          simp only [List.mem_cons, forall_eq_or_imp, List.any_cons, hA, decide_False,
            Bool.false_or]
          constructor
          · rintro ⟨hall, hb⟩
            exact ⟨⟨⟨fun h => absurd h hA', fun _ => ⟨e1, e2⟩⟩, hall⟩, hb⟩
          · rintro ⟨⟨_, hall⟩, hb⟩
            exact ⟨hall, hb⟩

/-- When `BindPre` succeeds. -/
theorem BindPre_true_iff (st : Store) (chainId A : String) (force : Bool) :
    (BindPre st chainId A force).1 = true ↔
      ∃ rules, GetObject st (ruleKey chainId) = some rules ∧
        (∃ r ∈ rules, r.Address = A) ∧
        (∀ r ∈ rules, r.Address = A → r.Status = GovernanceBindable) ∧
        (∀ r ∈ rules, r.Address ≠ A →
          (r.Status = GovernanceAvailable → force = true) ∧
          ¬ (r.Master = true ∧ r.Status ≠ GovernanceAvailable)) := by
  unfold BindPre
  cases hg : GetObject st (ruleKey chainId) with
  | none => simp
  | some rules =>
    simp only [Option.some.injEq, exists_eq_left']
    cases hl : bindPreLoop A force rules false with
    | error msg =>
      simp only [Bool.false_eq_true, false_iff]
      rintro ⟨hmem, h1, h2⟩
      have := (bindPreLoop_ok_iff A force rules false
        (false || rules.any (fun r => decide (A = r.Address)))).mpr
        ⟨fun r hr => ⟨h1 r hr, h2 r hr⟩, rfl⟩
      rw [hl] at this
      cases this
    | ok b =>
      obtain ⟨hall, hb⟩ := (bindPreLoop_ok_iff A force rules false b).mp hl
      have hmem_iff : b = true ↔ ∃ r ∈ rules, r.Address = A := by
        rw [hb, Bool.false_or, List.any_eq_true]
        constructor
        · rintro ⟨r, hr, h⟩
          exact ⟨r, hr, (of_decide_eq_true h).symm⟩
        · rintro ⟨r, hr, h⟩
          exact ⟨r, hr, decide_eq_true h.symm⟩
      by_cases hbt : b = true
      · have hmem := hmem_iff.mp hbt
        simp only [hbt, Bool.not_true, Bool.false_eq_true, if_false, true_iff]
        exact ⟨hmem, fun r hr => (hall r hr).1, fun r hr => (hall r hr).2⟩
      · have hno : ¬ ∃ r ∈ rules, r.Address = A := fun h => hbt (hmem_iff.mpr h)
        have hbf : b = false := by simpa using hbt
        simp only [hbf, Bool.not_false, if_true, Bool.false_eq_true, false_iff]
        exact fun h => hno h.1

/-- C3: `BindPre` succeeds if and only if the chain has a rule collection, the
collection contains a record with address `A`, every record with address `A` is
bindable, and every record with another address is available only if `force`
is set and is not a master with a status other than available; in particular it
fails, whatever `force` is, while a record with another address is master and
not available. -/
theorem BindPre_iff (st : Store) (chainId A : String) (force : Bool) :
    ((BindPre st chainId A force).1 = true ↔
      ∃ rules, GetObject st (ruleKey chainId) = some rules ∧
        (∃ r ∈ rules, r.Address = A) ∧
        (∀ r ∈ rules, r.Address = A → r.Status = GovernanceBindable) ∧
        (∀ r ∈ rules, r.Address ≠ A →
          (r.Status = GovernanceAvailable → force = true) ∧
          ¬ (r.Master = true ∧ r.Status ≠ GovernanceAvailable))) ∧
    (∀ rules, GetObject st (ruleKey chainId) = some rules →
      (∃ r ∈ rules, r.Address ≠ A ∧ r.Master = true ∧ r.Status ≠ GovernanceAvailable) →
      (BindPre st chainId A force).1 = false) := by
  refine ⟨BindPre_true_iff st chainId A force, ?_⟩
  rintro rules hget ⟨r, hr, hA, hM, hS⟩
  by_contra hne
  have ht : (BindPre st chainId A force).1 = true := by simpa using hne
  obtain ⟨rules', hget', -, -, h2⟩ := (BindPre_true_iff st chainId A force).mp ht
  rw [hget] at hget'
  cases hget'
  exact (h2 r hr hA).2 ⟨hM, hS⟩

/-- Witness for C3: the check fails with and without force in the store where
the master record `0xEF` is still bindable, and succeeds on the store with one
bindable record. -/
theorem BindPre_iff_witness :
    (BindPre masterPendingStore "chainA" "0xAB" true).1 = false ∧
    (BindPre masterPendingStore "chainA" "0xAB" false).1 = false ∧
    (BindPre oneRuleStore "chainA" "0xAB" false).1 = true :=
  ⟨(BindPre_iff masterPendingStore "chainA" "0xAB" true).2 masterPendingRules (by decide)
      ⟨⟨"0xEF", "chainA", true, GovernanceBindable⟩, by decide, by decide, rfl, by decide⟩,
    (BindPre_iff masterPendingStore "chainA" "0xAB" false).2 masterPendingRules (by decide)
      ⟨⟨"0xEF", "chainA", true, GovernanceBindable⟩, by decide, by decide, rfl, by decide⟩,
    (BindPre_iff oneRuleStore "chainA" "0xAB" false).1.mpr
      ⟨[⟨"0xAB", "chainA", false, GovernanceBindable⟩], by decide,
        ⟨⟨"0xAB", "chainA", false, GovernanceBindable⟩, by decide, rfl⟩,
        by decide, by decide⟩⟩

/-- C4 (as stated) fails: in a store reached by registering three rules, binding
and approving `0xCD` and making the still bindable `0xEF` master, the collection
contains the bindable target `0xAB` and the available record `0xCD`, yet
`BindPre` for `0xAB` fails with force as it does without. -/
theorem BindPre_force_fails :
    GetObject masterPendingStore (ruleKey "chainA") =
        some [⟨"0xAB", "chainA", false, GovernanceBindable⟩,
              ⟨"0xCD", "chainA", false, GovernanceAvailable⟩,
              ⟨"0xEF", "chainA", true, GovernanceBindable⟩] ∧
      (BindPre masterPendingStore "chainA" "0xAB" false).1 = false ∧
      (BindPre masterPendingStore "chainA" "0xAB" true).1 = false := by
  decide

/-- C4 (amended): when the chain's collection contains a record with address `A`
and a record whose status is available, `BindPre` without force fails, and
`BindPre` with force succeeds if and only if every record with address `A` is
bindable and no record with another address is master with a status other than
available. -/
theorem BindPre_other_available (st : Store) (chainId A : String) (rules : List Rule)
    (hget : GetObject st (ruleKey chainId) = some rules)
    (hA : ∃ r ∈ rules, r.Address = A)
    (hB : ∃ r ∈ rules, r.Status = GovernanceAvailable) :
    (BindPre st chainId A false).1 = false ∧
    ((BindPre st chainId A true).1 = true ↔
      (∀ r ∈ rules, r.Address = A → r.Status = GovernanceBindable) ∧
      (∀ r ∈ rules, r.Address ≠ A → ¬ (r.Master = true ∧ r.Status ≠ GovernanceAvailable))) := by
  constructor
  · by_contra hne
    have ht : (BindPre st chainId A false).1 = true := by simpa using hne
    obtain ⟨rules', hget', -, h1, h2⟩ := (BindPre_true_iff st chainId A false).mp ht
    rw [hget] at hget'
    cases hget'
    obtain ⟨r, hr, hS⟩ := hB
    by_cases hrA : r.Address = A
    · have := h1 r hr hrA
      rw [hS] at this
      exact absurd this (by decide)
    · exact absurd ((h2 r hr hrA).1 hS) (by decide)
  · rw [BindPre_true_iff]
    constructor
    · rintro ⟨rules', hget', -, h1, h2⟩
      rw [hget] at hget'
      cases hget'
      exact ⟨h1, fun r hr hrA => (h2 r hr hrA).2⟩
    · rintro ⟨h1, h2⟩
      exact ⟨rules, hget, hA, h1, fun r hr hrA => ⟨fun _ => rfl, h2 r hr hrA⟩⟩

/-- Witness for C4 (amended): the store `masterPendingStore`, target `0xAB`. -/
theorem BindPre_other_available_witness :
    (BindPre masterPendingStore "chainA" "0xAB" false).1 = false ∧
    ((BindPre masterPendingStore "chainA" "0xAB" true).1 = true ↔
      (∀ r ∈ masterPendingRules, r.Address = "0xAB" → r.Status = GovernanceBindable) ∧
      (∀ r ∈ masterPendingRules, r.Address ≠ "0xAB" →
        ¬ (r.Master = true ∧ r.Status ≠ GovernanceAvailable))) :=
  BindPre_other_available masterPendingStore "chainA" "0xAB" masterPendingRules (by decide)
    ⟨⟨"0xAB", "chainA", false, GovernanceBindable⟩, by decide, rfl⟩
    ⟨⟨"0xCD", "chainA", false, GovernanceAvailable⟩, by decide, rfl⟩

/-! ## Available records -/

theorem availableCount_eq_zero_iff (rules : List Rule) :
    availableCount rules = 0 ↔ ∀ r ∈ rules, r.Status ≠ GovernanceAvailable := by
  simp [availableCount, List.countP_eq_zero]

/-- C5 (as stated) fails: from the empty store, two rules are registered and
`0xAB` is bound (in a state where `BindPre` without force succeeds for it) and
approved; `0xCD`, never bound, is frozen, then unbound, and the unbinding is
rejected, which by the table leads to available. The collection then holds two
available records. -/
theorem two_available_reachable :
    bindsGuarded emptyStore rejectedUnbindCalls = true ∧
      GetObject (runCalls emptyStore rejectedUnbindCalls) (ruleKey "chainA") =
        some [⟨"0xAB", "chainA", false, GovernanceAvailable⟩,
              ⟨"0xCD", "chainA", false, GovernanceAvailable⟩] ∧
      availableCount [⟨"0xAB", "chainA", false, GovernanceAvailable⟩,
                      ⟨"0xCD", "chainA", false, GovernanceAvailable⟩] = 2 := by
  decide

/-- C5 (amended): in every state where `BindPre` without force succeeds for a
rule, the chain's collection holds no available record, `ChangeStatus` with the
bind event then succeeds for that rule, and the collection it persists still
holds no available record. -/
theorem BindPre_excludes_available (st : Store) (chainId A : String)
    (h : (BindPre st chainId A false).1 = true) :
    ∃ rules, GetObject st (ruleKey chainId) = some rules ∧ availableCount rules = 0 ∧
      (ChangeStatus st A EventBind chainId).2.1 = true ∧
      ∃ rules', GetObject (ChangeStatus st A EventBind chainId).1 (ruleKey chainId) =
          some rules' ∧ availableCount rules' = 0 := by
  obtain ⟨rules, hget, hmem, h1, h2⟩ := (BindPre_true_iff st chainId A false).mp h
  have hbind : specTable GovernanceBindable EventBind = some GovernanceBinding := by decide
  have hnone : ∀ r ∈ rules, r.Status ≠ GovernanceAvailable := by
    intro r hr hS
    by_cases hrA : r.Address = A
    · have := h1 r hr hrA
      rw [hS] at this
      exact absurd this (by decide)
    · exact absurd ((h2 r hr hrA).1 hS) (by decide)
  have hlegal : ∀ r ∈ rules, r.Address = A → ∃ d, specTable r.Status EventBind = some d :=
    fun r hr hrA => ⟨GovernanceBinding, by rw [h1 r hr hrA]; exact hbind⟩
  have hcs := ChangeStatus_eq_of_legal st A EventBind chainId rules hget hmem hlegal
  refine ⟨rules, hget, (availableCount_eq_zero_iff rules).mpr hnone, ?_⟩
  rw [hcs]
  refine ⟨rfl, _, GetObject_SetObject_same _ _ _, ?_⟩
  rw [availableCount_eq_zero_iff]
  intro r' hr'
  obtain ⟨r, hr, rfl⟩ := List.mem_map.mp hr'
  by_cases hrA : A = r.Address
  · have hS := h1 r hr hrA.symm
    simp only [hrA, if_true, hS, hbind, Option.getD_some]
    decide
  · simp only [hrA, if_false]
    exact hnone r hr

/-- Witness for C5 (amended): the store with one bindable record. -/
theorem BindPre_excludes_available_witness :
    (BindPre oneRuleStore "chainA" "0xAB" false).1 = true ∧
    ∃ rules, GetObject oneRuleStore (ruleKey "chainA") = some rules ∧
      availableCount rules = 0 ∧
      (ChangeStatus oneRuleStore "0xAB" EventBind "chainA").2.1 = true ∧
      ∃ rules', GetObject (ChangeStatus oneRuleStore "0xAB" EventBind "chainA").1
          (ruleKey "chainA") = some rules' ∧ availableCount rules' = 0 :=
  ⟨by decide, BindPre_excludes_available oneRuleStore "chainA" "0xAB" (by decide)⟩

/-! ## Registration -/

theorem any_address_eq_true {a : String} {rules : List Rule} :
    rules.any (fun r => decide (a = r.Address)) = true ↔ ∃ r ∈ rules, r.Address = a := by
  rw [List.any_eq_true]
  constructor
  · rintro ⟨r, hr, h⟩
    exact ⟨r, hr, (of_decide_eq_true h).symm⟩
  · rintro ⟨r, hr, h⟩
    exact ⟨r, hr, decide_eq_true h.symm⟩

theorem any_address_eq_false {a : String} {rules : List Rule} :
    rules.any (fun r => decide (a = r.Address)) = false ↔ ∀ r ∈ rules, r.Address ≠ a := by
  rw [← Bool.not_eq_true, any_address_eq_true]
  push_neg
  rfl

/-- The outcome of `Register` for an address the chain's collection holds. -/
theorem Register_of_present (st : Store) (chainId a : String) (rules : List Rule)
    (hget : GetObject st (ruleKey chainId) = some rules)
    (hmem : ∃ r ∈ rules, r.Address = a) :
    Register st chainId a = (st, true, ⟨a, true⟩) := by
  simp [Register, hget, any_address_eq_true.mpr hmem]

/-- The outcome of `Register` for an address of a collection that lacks it. -/
theorem Register_of_absent (st : Store) (chainId a : String) (rules : List Rule)
    (hget : GetObject st (ruleKey chainId) = some rules)
    (hab : ∀ r ∈ rules, r.Address ≠ a) :
    Register st chainId a =
      (SetObject st (ruleKey chainId) (rules ++ [⟨a, chainId, false, GovernanceBindable⟩]),
        true, ⟨a, false⟩) := by
  simp [Register, hget, any_address_eq_false.mpr hab]

/-- The outcome of `Register` for a chain without a collection. -/
theorem Register_of_none (st : Store) (chainId a : String)
    (hget : GetObject st (ruleKey chainId) = none) :
    Register st chainId a =
      (SetObject st (ruleKey chainId) [⟨a, chainId, false, GovernanceBindable⟩],
        true, ⟨a, false⟩) := by
  simp [Register, hget]

/-- After `Register` the chain's collection holds the address. -/
theorem Register_registers (st : Store) (chainId a : String) :
    ∃ rules, GetObject (Register st chainId a).1 (ruleKey chainId) = some rules ∧
      ∃ r ∈ rules, r.Address = a := by
  cases hg : GetObject st (ruleKey chainId) with
  | none =>
    rw [Register_of_none st chainId a hg]
    exact ⟨_, GetObject_SetObject_same _ _ _, _, List.mem_singleton.mpr rfl, rfl⟩
  | some rules =>
    by_cases hmem : ∃ r ∈ rules, r.Address = a
    · rw [Register_of_present st chainId a rules hg hmem]
      exact ⟨rules, hg, hmem⟩
    · push_neg at hmem
      rw [Register_of_absent st chainId a rules hg hmem]
      exact ⟨_, GetObject_SetObject_same _ _ _, _,
        List.mem_append_right _ (List.mem_singleton.mpr rfl), rfl⟩

/-- `Register` writes no key but that of its chain. -/
theorem Register_other_key (st : Store) (chainId a k : String) (hkey : k ≠ ruleKey chainId) :
    GetObject (Register st chainId a).1 k = GetObject st k := by
  cases hg : GetObject st (ruleKey chainId) with
  | none =>
    rw [Register_of_none st chainId a hg]
    exact GetObject_SetObject_other _ _ _ _ hkey
  | some rules =>
    by_cases hmem : ∃ r ∈ rules, r.Address = a
    · rw [Register_of_present st chainId a rules hg hmem]
    · push_neg at hmem
      rw [Register_of_absent st chainId a rules hg hmem]
      exact GetObject_SetObject_other _ _ _ _ hkey

/-- C6: `Register` is idempotent: a second call with the same chain and address
returns the store the first call left, succeeds and reports `IsRegistered = true`. -/
theorem Register_idempotent (st : Store) (chainId a : String) :
    (Register (Register st chainId a).1 chainId a).1 = (Register st chainId a).1 ∧
    (Register (Register st chainId a).1 chainId a).2.1 = true ∧
    (Register (Register st chainId a).1 chainId a).2.2 = ⟨a, true⟩ := by
  obtain ⟨rules, hget, hmem⟩ := Register_registers st chainId a
  rw [Register_of_present (Register st chainId a).1 chainId a rules hget hmem]
  exact ⟨rfl, rfl, rfl⟩

/-- C7: when the chain has no collection or its collection contains no record
with the address, `Register` succeeds with `IsRegistered = false`, the chain's
collection afterwards is the previous one (empty if there was none) followed by
exactly one record with that address and chain, `master = false` and status
bindable, and every other key of the store keeps its value. -/
theorem Register_new (st : Store) (chainId a : String)
    (h : GetObject st (ruleKey chainId) = none ∨
      ∃ rules, GetObject st (ruleKey chainId) = some rules ∧ ∀ r ∈ rules, r.Address ≠ a) :
    (Register st chainId a).2.1 = true ∧
    (Register st chainId a).2.2 = ⟨a, false⟩ ∧
    GetObject (Register st chainId a).1 (ruleKey chainId) =
      some ((GetObject st (ruleKey chainId)).getD [] ++
        [⟨a, chainId, false, GovernanceBindable⟩]) ∧
    ∀ k, k ≠ ruleKey chainId → GetObject (Register st chainId a).1 k = GetObject st k := by
  rcases h with hnone | ⟨rules, hget, hab⟩
  · rw [Register_of_none st chainId a hnone, hnone]
    exact ⟨rfl, rfl, GetObject_SetObject_same _ _ _,
      fun k hk => GetObject_SetObject_other _ _ _ _ hk⟩
  · rw [Register_of_absent st chainId a rules hget hab, hget]
    exact ⟨rfl, rfl, GetObject_SetObject_same _ _ _,
      fun k hk => GetObject_SetObject_other _ _ _ _ hk⟩

/-- Witness for C7: a second address registered in the store with one record. -/
theorem Register_new_witness :
    (Register oneRuleStore "chainA" "0xCD").2.1 = true ∧
    (Register oneRuleStore "chainA" "0xCD").2.2 = ⟨"0xCD", false⟩ ∧
    GetObject (Register oneRuleStore "chainA" "0xCD").1 (ruleKey "chainA") =
      some ((GetObject oneRuleStore (ruleKey "chainA")).getD [] ++
        [⟨"0xCD", "chainA", false, GovernanceBindable⟩]) ∧
    ∀ k, k ≠ ruleKey "chainA" →
      GetObject (Register oneRuleStore "chainA" "0xCD").1 k = GetObject oneRuleStore k :=
  Register_new oneRuleStore "chainA" "0xCD"
    (Or.inr ⟨[⟨"0xAB", "chainA", false, GovernanceBindable⟩], by decide, by decide⟩)

/-! ## The master flag -/

theorem setMasterLoop_eq (A : String) (m : Bool) (rules : List Rule) (flag : Bool) :
    setMasterLoop A m rules flag =
      (rules.map (fun r => if A = r.Address then { r with Master := m } else r),
        flag || rules.any (fun r => decide (A = r.Address))) := by
  induction rules generalizing flag with
  | nil => simp [setMasterLoop]
  | cons r rs ih =>
    by_cases hA : A = r.Address
    · rw [setMasterLoop, if_pos hA, ih]
      simp [hA]
    · rw [setMasterLoop, if_neg hA, ih]
      simp [hA]

/-- The outcome of `SetMaster` when it finds no record to change. -/
theorem SetMaster_of_absent (st : Store) (A chainId : String) (m : Bool)
    (h : GetObject st (ruleKey chainId) = none ∨
      ∃ rules, GetObject st (ruleKey chainId) = some rules ∧ ∀ r ∈ rules, r.Address ≠ A) :
    (SetMaster st A chainId m).2.1 = false ∧ (SetMaster st A chainId m).1 = st := by
  rcases h with hnone | ⟨rules, hget, hab⟩
  · simp [SetMaster, hnone]
  · simp [SetMaster, hget, setMasterLoop_eq, any_address_eq_false.mpr hab]

/-- The outcome of `SetMaster` when the collection holds the address. -/
theorem SetMaster_of_present (st : Store) (A chainId : String) (m : Bool) (rules : List Rule)
    (hget : GetObject st (ruleKey chainId) = some rules)
    (hmem : ∃ r ∈ rules, r.Address = A) :
    SetMaster st A chainId m =
      (SetObject st (ruleKey chainId)
          (rules.map (fun r => if A = r.Address then { r with Master := m } else r)),
        true, "") := by
  simp [SetMaster, hget, setMasterLoop_eq, any_address_eq_true.mpr hmem]

/-- The outcome of `SetMaster` in general. -/
theorem SetMaster_cases (st : Store) (A chainId : String) (m : Bool) :
    ((SetMaster st A chainId m).2.1 = false ∧ (SetMaster st A chainId m).1 = st) ∨
    ∃ rules, GetObject st (ruleKey chainId) = some rules ∧
      (∃ r ∈ rules, r.Address = A) ∧
      SetMaster st A chainId m =
        (SetObject st (ruleKey chainId)
            (rules.map (fun r => if A = r.Address then { r with Master := m } else r)),
          true, "") := by
  cases hg : GetObject st (ruleKey chainId) with
  | none => exact Or.inl (SetMaster_of_absent st A chainId m (Or.inl hg))
  | some rules =>
    by_cases hmem : ∃ r ∈ rules, r.Address = A
    · exact Or.inr ⟨rules, rfl, hmem, SetMaster_of_present st A chainId m rules hg hmem⟩
    · push_neg at hmem
      exact Or.inl (SetMaster_of_absent st A chainId m (Or.inr ⟨rules, hg, hmem⟩))

/-! ## Uniqueness of addresses -/

theorem UniqueAddresses_emptyStore : UniqueAddresses emptyStore := by
  intro chainId rules h
  simp [GetObject, emptyStore] at h

theorem UniqueAddresses_SetObject (st : Store) (chainId : String) (rules : List Rule)
    (h : UniqueAddresses st) (hn : (rules.map Rule.Address).Nodup) :
    UniqueAddresses (SetObject st (ruleKey chainId) rules) := by
  intro c rs hget
  by_cases hc : ruleKey c = ruleKey chainId
  · rw [hc, GetObject_SetObject_same] at hget
    cases hget
    exact hn
  · rw [GetObject_SetObject_other _ _ _ _ hc] at hget
    exact h c rs hget

theorem UniqueAddresses_Register (st : Store) (chainId a : String) (h : UniqueAddresses st) :
    UniqueAddresses (Register st chainId a).1 := by
  cases hg : GetObject st (ruleKey chainId) with
  | none =>
    rw [Register_of_none st chainId a hg]
    exact UniqueAddresses_SetObject st chainId _ h (by simp)
  | some rules =>
    by_cases hmem : ∃ r ∈ rules, r.Address = a
    · rw [Register_of_present st chainId a rules hg hmem]
      exact h
    · push_neg at hmem
      rw [Register_of_absent st chainId a rules hg hmem]
      apply UniqueAddresses_SetObject st chainId _ h
      rw [List.map_append, List.nodup_append]
      refine ⟨h chainId rules hg, by simp, ?_⟩
      intro x hx hx'
      obtain ⟨r, hr, rfl⟩ := List.mem_map.mp hx
      simp only [List.map_cons, List.map_nil, List.mem_singleton] at hx'
      exact hmem r hr hx'

theorem UniqueAddresses_SetMaster (st : Store) (A chainId : String) (m : Bool)
    (h : UniqueAddresses st) : UniqueAddresses (SetMaster st A chainId m).1 := by
  rcases SetMaster_cases st A chainId m with ⟨-, hst⟩ | ⟨rules, hget, -, heq⟩
  · rw [hst]
    exact h
  · rw [heq]
    apply UniqueAddresses_SetObject st chainId _ h
    have hmap : (rules.map (fun r => if A = r.Address then { r with Master := m } else r)).map
        Rule.Address = rules.map Rule.Address := by
      rw [List.map_map]
      apply List.map_congr_left
      intro r _
      by_cases hA : A = r.Address <;> simp [hA]
    rw [hmap]
    exact h chainId rules hget

theorem UniqueAddresses_ChangeStatus (st : Store) (A e chainId : String)
    (h : UniqueAddresses st) : UniqueAddresses (ChangeStatus st A e chainId).1 := by
  rcases ChangeStatus_cases st A e chainId with ⟨-, hst⟩ | ⟨rules, hget, -, -, heq⟩
  · rw [hst]
    exact h
  · rw [heq]
    apply UniqueAddresses_SetObject st chainId _ h
    have hmap : (rules.map (fun r =>
        if A = r.Address then { r with Status := (specTable r.Status e).getD r.Status }
        else r)).map Rule.Address = rules.map Rule.Address := by
      rw [List.map_map]
      apply List.map_congr_left
      intro r _
      by_cases hA : A = r.Address <;> simp [hA]
    rw [hmap]
    exact h chainId rules hget

theorem UniqueAddresses_exec (st : Store) (call : Call) (h : UniqueAddresses st) :
    UniqueAddresses (call.exec st) := by
  cases call with
  | register chainId a => exact UniqueAddresses_Register st chainId a h
  | setMaster A chainId m => exact UniqueAddresses_SetMaster st A chainId m h
  | changeStatus A e chainId => exact UniqueAddresses_ChangeStatus st A e chainId h

theorem UniqueAddresses_runCalls (st : Store) (calls : List Call) (h : UniqueAddresses st) :
    UniqueAddresses (runCalls st calls) := by
  induction calls generalizing st with
  | nil => exact h
  | cons call calls ih => exact ih (call.exec st) (UniqueAddresses_exec st call h)

/-- C8: in every state reached from the empty store by a sequence of `Register`,
`SetMaster` and `ChangeStatus` calls no chain's collection contains two records
with the same address, and each of the three operations preserves this
uniqueness in every store. -/
theorem addresses_unique :
    (∀ calls : List Call, ∀ chainId rules,
      GetObject (runCalls emptyStore calls) (ruleKey chainId) = some rules →
        (rules.map Rule.Address).Nodup) ∧
    (∀ st : Store, UniqueAddresses st →
      (∀ chainId a, UniqueAddresses (Register st chainId a).1) ∧
      (∀ A chainId m, UniqueAddresses (SetMaster st A chainId m).1) ∧
      (∀ A e chainId, UniqueAddresses (ChangeStatus st A e chainId).1)) :=
  ⟨fun calls => UniqueAddresses_runCalls emptyStore calls UniqueAddresses_emptyStore,
    fun st h => ⟨fun chainId a => UniqueAddresses_Register st chainId a h,
      fun A chainId m => UniqueAddresses_SetMaster st A chainId m h,
      fun A e chainId => UniqueAddresses_ChangeStatus st A e chainId h⟩⟩

/-- Witness for C8: the collection reached by `twoBindsCalls` has two distinct
addresses. -/
theorem addresses_unique_witness :
    GetObject (runCalls emptyStore twoBindsCalls) (ruleKey "chainA") =
        some [⟨"0xAB", "chainA", false, GovernanceAvailable⟩,
              ⟨"0xCD", "chainA", false, GovernanceAvailable⟩] ∧
      (List.map Rule.Address [⟨"0xAB", "chainA", false, GovernanceAvailable⟩,
        ⟨"0xCD", "chainA", false, GovernanceAvailable⟩]).Nodup :=
  ⟨by decide, addresses_unique.1 twoBindsCalls "chainA" _ (by decide)⟩

/-! ## Legal status changes -/

/-- In a collection with unique addresses that contains the record `r`, a legal
event fired on the address of `r` succeeds, the record with that address gets
the destination of the table, and nothing else changes. -/
theorem ChangeStatus_of_unique (st : Store) (A e chainId : String) (rules : List Rule)
    (r : Rule) (d : GovernanceStatus)
    (hget : GetObject st (ruleKey chainId) = some rules)
    (hu : (rules.map Rule.Address).Nodup)
    (hr : r ∈ rules) (hA : r.Address = A) (hd : specTable r.Status e = some d) :
    (ChangeStatus st A e chainId).2.1 = true ∧
    ∃ rules', GetObject (ChangeStatus st A e chainId).1 (ruleKey chainId) = some rules' ∧
      List.Forall₂
        (fun x x' => x'.Address = x.Address ∧ x'.ChainId = x.ChainId ∧ x'.Master = x.Master ∧
          (x.Address = A → x'.Status = d) ∧ (x.Address ≠ A → x'.Status = x.Status))
        rules rules' := by
  have hone : ∀ x ∈ rules, x.Address = A → x = r :=
    fun x hx hxA => List.inj_on_of_nodup_map hu hx hr (hxA.trans hA.symm)
  have hlegal : ∀ x ∈ rules, x.Address = A → ∃ d', specTable x.Status e = some d' := by
    intro x hx hxA
    rw [hone x hx hxA]
    exact ⟨d, hd⟩
  have hcs := ChangeStatus_eq_of_legal st A e chainId rules hget ⟨r, hr, hA⟩ hlegal
  rw [hcs]
  refine ⟨rfl, _, GetObject_SetObject_same _ _ _, ?_⟩
  rw [List.forall₂_map_right_iff, List.forall₂_same]
  intro x hx
  by_cases hxA : A = x.Address
  · have hxr : x = r := hone x hx hxA.symm
    have hdx : specTable x.Status e = some d := by rw [hxr]; exact hd
    simp [hxA, hdx]
  · have hxA' : x.Address ≠ A := fun h => hxA h.symm
    simp [hxA, hxA']

/-- C1: for every stored collection with unique addresses (the invariant of the
data model) that contains a record `r` with address `A`, and for every event `e`
such that the table has a row for the status of `r` and `e`, with destination
`d`, `ChangeStatus` succeeds and the persisted collection is the old one,
record by record, where the record with address `A` has status exactly `d` and
every other field and record is unchanged; and the same holds, with no
assumption on addresses, for the collection of every store reached from the
empty store by `Register`, `SetMaster` and `ChangeStatus` calls. -/
theorem ChangeStatus_legal :
    (∀ (st : Store) (A e chainId : String) (rules : List Rule) (r : Rule)
        (d : GovernanceStatus),
      GetObject st (ruleKey chainId) = some rules → (rules.map Rule.Address).Nodup →
      r ∈ rules → r.Address = A → specTable r.Status e = some d →
      (ChangeStatus st A e chainId).2.1 = true ∧
      ∃ rules', GetObject (ChangeStatus st A e chainId).1 (ruleKey chainId) = some rules' ∧
        List.Forall₂
          (fun x x' => x'.Address = x.Address ∧ x'.ChainId = x.ChainId ∧
            x'.Master = x.Master ∧ (x.Address = A → x'.Status = d) ∧
            (x.Address ≠ A → x'.Status = x.Status))
          rules rules') ∧
    (∀ (calls : List Call) (A e chainId : String) (rules : List Rule) (r : Rule)
        (d : GovernanceStatus),
      GetObject (runCalls emptyStore calls) (ruleKey chainId) = some rules →
      r ∈ rules → r.Address = A → specTable r.Status e = some d →
      (ChangeStatus (runCalls emptyStore calls) A e chainId).2.1 = true ∧
      ∃ rules', GetObject (ChangeStatus (runCalls emptyStore calls) A e chainId).1
          (ruleKey chainId) = some rules' ∧
        List.Forall₂
          (fun x x' => x'.Address = x.Address ∧ x'.ChainId = x.ChainId ∧
            x'.Master = x.Master ∧ (x.Address = A → x'.Status = d) ∧
            (x.Address ≠ A → x'.Status = x.Status))
          rules rules') :=
  ⟨fun st A e chainId rules r d hget hu hr hA hd =>
      ChangeStatus_of_unique st A e chainId rules r d hget hu hr hA hd,
    fun calls A e chainId rules r d hget hr hA hd =>
      ChangeStatus_of_unique (runCalls emptyStore calls) A e chainId rules r d hget
        (UniqueAddresses_runCalls emptyStore calls UniqueAddresses_emptyStore chainId rules hget)
        hr hA hd⟩

/-- Witness for C1: the unbind event on the available record `0xCD` of the
three-record collection of `masterPendingStore`, and on the available record
`0xAB` of the store reached by `twoBindsCalls`. -/
theorem ChangeStatus_legal_witness :
    (ChangeStatus masterPendingStore "0xCD" EventUnbind "chainA").2.1 = true ∧
    (ChangeStatus (runCalls emptyStore twoBindsCalls) "0xAB" EventUnbind "chainA").2.1 =
      true :=
  ⟨(ChangeStatus_legal.1 masterPendingStore "0xCD" EventUnbind "chainA" masterPendingRules
      ⟨"0xCD", "chainA", false, GovernanceAvailable⟩ GovernanceUnbinding
      (by decide) (by decide) (by decide) rfl (by decide)).1,
    (ChangeStatus_legal.2 twoBindsCalls "0xAB" EventUnbind "chainA"
      [⟨"0xAB", "chainA", false, GovernanceAvailable⟩,
       ⟨"0xCD", "chainA", false, GovernanceAvailable⟩]
      ⟨"0xAB", "chainA", false, GovernanceAvailable⟩ GovernanceUnbinding
      (by decide) (by decide) rfl (by decide)).1⟩

/-! ## Frame properties -/

/-- C9: a status changes only through an event fired on the record. For every
key of the store and the collection stored under it: `Register` leaves a
collection that starts with the old one (every stored record is unchanged),
`SetMaster` leaves a collection whose records have, position by position, the
old address and the old status, and `ChangeStatus` targeting `A` leaves a
collection whose records have the old address and, where that address differs
from `A`, the old status. -/
theorem status_frame (st : Store) (k : String) (rules : List Rule)
    (hk : GetObject st k = some rules) :
    (∀ chainId a, ∃ extra,
      GetObject (Register st chainId a).1 k = some (rules ++ extra)) ∧
    (∀ A chainId m, ∃ rules', GetObject (SetMaster st A chainId m).1 k = some rules' ∧
      List.Forall₂ (fun r r' => r'.Address = r.Address ∧ r'.Status = r.Status) rules rules') ∧
    (∀ A e chainId, ∃ rules', GetObject (ChangeStatus st A e chainId).1 k = some rules' ∧
      List.Forall₂ (fun r r' => r'.Address = r.Address ∧
        (r.Address ≠ A → r'.Status = r.Status)) rules rules') := by
  refine ⟨?_, ?_, ?_⟩
  · intro chainId a
    by_cases hkey : k = ruleKey chainId
    · subst hkey
      by_cases hmem : ∃ r ∈ rules, r.Address = a
      · rw [Register_of_present st chainId a rules hk hmem]
        exact ⟨[], by simpa using hk⟩
      · push_neg at hmem
        rw [Register_of_absent st chainId a rules hk hmem]
        exact ⟨_, GetObject_SetObject_same _ _ _⟩
    · refine ⟨[], ?_⟩
      simpa [Register_other_key st chainId a k hkey] using hk
  · intro A chainId m
    rcases SetMaster_cases st A chainId m with ⟨-, hst⟩ | ⟨rs, hget, -, heq⟩
    · rw [hst]
      exact ⟨rules, hk, List.forall₂_same.mpr (fun _ _ => ⟨rfl, rfl⟩)⟩
    · rw [heq]
      by_cases hkey : k = ruleKey chainId
      · subst hkey
        rw [hk] at hget
        cases hget
        refine ⟨_, GetObject_SetObject_same _ _ _, ?_⟩
        rw [List.forall₂_map_right_iff, List.forall₂_same]
        intro r _
        by_cases hA : A = r.Address <;> simp [hA]
      · rw [GetObject_SetObject_other _ _ _ _ hkey]
        exact ⟨rules, hk, List.forall₂_same.mpr (fun _ _ => ⟨rfl, rfl⟩)⟩
  · intro A e chainId
    rcases ChangeStatus_cases st A e chainId with ⟨-, hst⟩ | ⟨rs, hget, -, -, heq⟩
    · rw [hst]
      exact ⟨rules, hk, List.forall₂_same.mpr (fun _ _ => ⟨rfl, fun _ => rfl⟩)⟩
    · rw [heq]
      by_cases hkey : k = ruleKey chainId
      · subst hkey
        rw [hk] at hget
        cases hget
        refine ⟨_, GetObject_SetObject_same _ _ _, ?_⟩
        rw [List.forall₂_map_right_iff, List.forall₂_same]
        intro r _
        by_cases hA : A = r.Address
        · simp [hA]
        · simp [hA]
      · rw [GetObject_SetObject_other _ _ _ _ hkey]
        exact ⟨rules, hk, List.forall₂_same.mpr (fun _ _ => ⟨rfl, fun _ => rfl⟩)⟩

/-- Witness for C9: the collection of `masterPendingStore`. -/
theorem status_frame_witness :
    (∀ chainId a, ∃ extra,
      GetObject (Register masterPendingStore chainId a).1 (ruleKey "chainA") =
        some (masterPendingRules ++ extra)) ∧
    (∀ A chainId m, ∃ rules',
      GetObject (SetMaster masterPendingStore A chainId m).1 (ruleKey "chainA") = some rules' ∧
      List.Forall₂ (fun r r' => r'.Address = r.Address ∧ r'.Status = r.Status)
        masterPendingRules rules') ∧
    (∀ A e chainId, ∃ rules',
      GetObject (ChangeStatus masterPendingStore A e chainId).1 (ruleKey "chainA") =
        some rules' ∧
      List.Forall₂ (fun r r' => r'.Address = r.Address ∧
        (r.Address ≠ A → r'.Status = r.Status)) masterPendingRules rules') :=
  status_frame masterPendingStore (ruleKey "chainA") masterPendingRules (by decide)

/-- C10: `SetMaster` fails and returns the store unchanged when the chain has no
collection or no record has address `A`; otherwise it succeeds, the chain's
collection afterwards has, position by position, the old address, chain and
status, the master flag `m` in the records with address `A` and the old master
flag in every other record, and every other key of the store keeps its value. -/
theorem SetMaster_spec (st : Store) (A chainId : String) (m : Bool) :
    ((GetObject st (ruleKey chainId) = none ∨
        ∃ rules, GetObject st (ruleKey chainId) = some rules ∧ ∀ r ∈ rules, r.Address ≠ A) →
      (SetMaster st A chainId m).2.1 = false ∧ (SetMaster st A chainId m).1 = st) ∧
    (∀ rules, GetObject st (ruleKey chainId) = some rules → (∃ r ∈ rules, r.Address = A) →
      (SetMaster st A chainId m).2.1 = true ∧
      (∃ rules', GetObject (SetMaster st A chainId m).1 (ruleKey chainId) = some rules' ∧
        List.Forall₂
          (fun r r' => r'.Address = r.Address ∧ r'.ChainId = r.ChainId ∧
            r'.Status = r.Status ∧ (r.Address = A → r'.Master = m) ∧
            (r.Address ≠ A → r'.Master = r.Master))
          rules rules') ∧
      ∀ k, k ≠ ruleKey chainId →
        GetObject (SetMaster st A chainId m).1 k = GetObject st k) := by
  refine ⟨SetMaster_of_absent st A chainId m, ?_⟩
  intro rules hget hmem
  rw [SetMaster_of_present st A chainId m rules hget hmem]
  refine ⟨rfl, ⟨_, GetObject_SetObject_same _ _ _, ?_⟩,
    fun k hk => GetObject_SetObject_other _ _ _ _ hk⟩
  rw [List.forall₂_map_right_iff, List.forall₂_same]
  intro r _
  by_cases hA : A = r.Address
  · simp [hA]
  · have hA' : r.Address ≠ A := fun h => hA h.symm
    simp [hA, hA']

/-- Witness for C10: an absent address fails on the store with one record, and
the address `0xAB` of that store is made master. -/
theorem SetMaster_spec_witness :
    ((SetMaster oneRuleStore "0xCD" "chainA" true).2.1 = false ∧
      (SetMaster oneRuleStore "0xCD" "chainA" true).1 = oneRuleStore) ∧
    (SetMaster oneRuleStore "0xAB" "chainA" true).2.1 = true ∧
    GetObject (SetMaster oneRuleStore "0xAB" "chainA" true).1 (ruleKey "chainA") =
      some [⟨"0xAB", "chainA", true, GovernanceBindable⟩] :=
  ⟨(SetMaster_spec oneRuleStore "0xCD" "chainA" true).1
      (Or.inr ⟨[⟨"0xAB", "chainA", false, GovernanceBindable⟩], by decide, by decide⟩),
    ((SetMaster_spec oneRuleStore "0xAB" "chainA" true).2
      [⟨"0xAB", "chainA", false, GovernanceBindable⟩] (by decide)
      ⟨⟨"0xAB", "chainA", false, GovernanceBindable⟩, by decide, rfl⟩).1,
    by decide⟩

/-! ## Setting the master flag twice, and the master query -/

/-- C11 (as stated) fails: in a store reached by registering `0xAB` and making
it master, `SetMaster` with `true` and then with `false` both succeed and leave
the master flag of `0xAB` false, while it was true before the two calls. -/
theorem SetMaster_twice_clears :
    GetObject masterStore (ruleKey "chainA") =
        some [⟨"0xAB", "chainA", true, GovernanceBindable⟩] ∧
      (SetMaster masterStore "0xAB" "chainA" true).2.1 = true ∧
      (SetMaster (SetMaster masterStore "0xAB" "chainA" true).1 "0xAB" "chainA" false).2.1 =
        true ∧
      GetObject
          (SetMaster (SetMaster masterStore "0xAB" "chainA" true).1 "0xAB" "chainA" false).1
          (ruleKey "chainA") =
        some [⟨"0xAB", "chainA", false, GovernanceBindable⟩] := by
  decide

/-- C11 (amended): when the chain's collection contains a record with address
`A`, `SetMaster` with `true` followed by `SetMaster` with `false` both succeed
and leave the master flag of every record with address `A` false, which is the
value it had before the two calls exactly when that value was false; the other
fields, and the master flag of every other record, are unchanged. -/
theorem SetMaster_true_false (st : Store) (A chainId : String) (rules : List Rule)
    (hget : GetObject st (ruleKey chainId) = some rules)
    (hmem : ∃ r ∈ rules, r.Address = A) :
    (SetMaster st A chainId true).2.1 = true ∧
    (SetMaster (SetMaster st A chainId true).1 A chainId false).2.1 = true ∧
    ∃ rules', GetObject (SetMaster (SetMaster st A chainId true).1 A chainId false).1
        (ruleKey chainId) = some rules' ∧
      List.Forall₂
        (fun r r' => r'.Address = r.Address ∧ r'.ChainId = r.ChainId ∧
          r'.Status = r.Status ∧
          (r.Address = A → r'.Master = false ∧ (r'.Master = r.Master ↔ r.Master = false)) ∧
          (r.Address ≠ A → r'.Master = r.Master))
        rules rules' := by
  have h1 := SetMaster_of_present st A chainId true rules hget hmem
  have hget1 : GetObject (SetMaster st A chainId true).1 (ruleKey chainId) =
      some (rules.map (fun r => if A = r.Address then { r with Master := true } else r)) := by
    rw [h1]
    exact GetObject_SetObject_same _ _ _
  have hmem1 : ∃ r ∈ rules.map (fun r => if A = r.Address then { r with Master := true } else r),
      r.Address = A := by
    obtain ⟨r, hr, hA⟩ := hmem
    refine ⟨_, List.mem_map.mpr ⟨r, hr, rfl⟩, ?_⟩
    simp [hA]
  have h2 := SetMaster_of_present (SetMaster st A chainId true).1 A chainId false _ hget1 hmem1
  refine ⟨by rw [h1], by rw [h2], ?_⟩
  rw [h2]
  refine ⟨_, GetObject_SetObject_same _ _ _, ?_⟩
  rw [List.map_map, List.forall₂_map_right_iff, List.forall₂_same]
  intro r _
  by_cases hA : A = r.Address
  · have hA' : r.Address = A := hA.symm
    simp only [Function.comp, hA', if_true, true_implies, ne_eq, not_true_eq_false,
      false_implies, and_true, true_and]
    exact ⟨fun h => h.symm, fun h => h.symm⟩
  · have hA' : r.Address ≠ A := fun h => hA h.symm
    simp [Function.comp, hA, hA']

/-- Witness for C11 (amended): the store with one record, whose master flag is
false before and after. -/
theorem SetMaster_true_false_witness :
    GetObject oneRuleStore (ruleKey "chainA") =
        some [⟨"0xAB", "chainA", false, GovernanceBindable⟩] ∧
      (SetMaster (SetMaster oneRuleStore "0xAB" "chainA" true).1 "0xAB" "chainA" false).2.1 =
        true :=
  ⟨by decide,
    (SetMaster_true_false oneRuleStore "0xAB" "chainA"
      [⟨"0xAB", "chainA", false, GovernanceBindable⟩] (by decide)
      ⟨⟨"0xAB", "chainA", false, GovernanceBindable⟩, by decide, rfl⟩).2.1⟩

/-- C12 (as stated) fails: in a store reached by registering `0xCD` and `0xAB`
and making `0xCD` master, `SetMaster` with `true` succeeds for `0xAB`, and
`GetMaster` then returns the record with address `0xCD`. -/
theorem GetMaster_returns_older :
    GetObject olderMasterStore (ruleKey "chainA") =
        some [⟨"0xCD", "chainA", true, GovernanceBindable⟩,
              ⟨"0xAB", "chainA", false, GovernanceBindable⟩] ∧
      (SetMaster olderMasterStore "0xAB" "chainA" true).2.1 = true ∧
      GetMaster (SetMaster olderMasterStore "0xAB" "chainA" true).1 "chainA" =
        (true, .rule ⟨"0xCD", "chainA", true, GovernanceBindable⟩) := by
  decide

/-- C12 (amended): when the chain's collection is `pre ++ a :: post` with `a`
the first record with address `A`, `SetMaster` with `true` succeeds and
`GetMaster` then succeeds; it returns the record `a` (with its master flag set)
when no record of `pre` is master, and otherwise a master record of `pre`,
whose address is not `A`. -/
theorem GetMaster_after_SetMaster (st : Store) (A chainId : String)
    (pre post : List Rule) (a : Rule)
    (hget : GetObject st (ruleKey chainId) = some (pre ++ a :: post))
    (ha : a.Address = A) (hpre : ∀ r ∈ pre, r.Address ≠ A) :
    (SetMaster st A chainId true).2.1 = true ∧
    (GetMaster (SetMaster st A chainId true).1 chainId).1 = true ∧
    ((∀ r ∈ pre, r.Master = false) →
      GetMaster (SetMaster st A chainId true).1 chainId =
        (true, .rule { a with Master := true })) ∧
    ((∃ r ∈ pre, r.Master = true) →
      ∃ r ∈ pre, r.Address ≠ A ∧ r.Master = true ∧
        GetMaster (SetMaster st A chainId true).1 chainId = (true, .rule r)) := by
  subst ha
  have hmem : ∃ r ∈ pre ++ a :: post, r.Address = a.Address :=
    ⟨a, List.mem_append_right _ (List.mem_cons_self _ _), rfl⟩
  have h1 := SetMaster_of_present st a.Address chainId true _ hget hmem
  have hpremap :
      pre.map (fun r => if a.Address = r.Address then { r with Master := true } else r) =
        pre := by
    have hcongr :
        pre.map (fun r => if a.Address = r.Address then { r with Master := true } else r) =
          pre.map id := by
      apply List.map_congr_left
      intro r hr
      have hA : ¬ a.Address = r.Address := fun h => hpre r hr h.symm
      simp [hA]
    rw [hcongr, List.map_id]
  have hgm : GetMaster (SetMaster st a.Address chainId true).1 chainId =
      match (pre.find? (fun r => decide (true = r.Master))).or
          (some { a with Master := true }) with
      | some r => (true, .rule r)
      | none => (false, .text "this appchain's master rule does not exist") := by
    rw [h1]
    simp only [GetMaster, GetObject_SetObject_same, List.map_append, List.map_cons, hpremap,
      List.find?_append, if_true]
    rw [List.find?_cons_of_pos _ (by simp)]
  refine ⟨by rw [h1], ?_, ?_, ?_⟩
  · rw [hgm]
    cases pre.find? (fun r => decide (true = r.Master)) <;> rfl
  · intro hno
    have hnone : pre.find? (fun r => decide (true = r.Master)) = none := by
      rw [List.find?_eq_none]
      intro r hr
      simp [hno r hr]
    rw [hgm, hnone]
    rfl
  · rintro ⟨r, hr, hm⟩
    cases hf : pre.find? (fun r => decide (true = r.Master)) with
    | none =>
      rw [List.find?_eq_none] at hf
      exact absurd (by simp [hm]) (hf r hr)
    | some x =>
      have hx : x ∈ pre := List.mem_of_find?_eq_some hf
      have hxm : x.Master = true := by
        have hp := List.find?_some (p := fun r : Rule => decide (true = r.Master)) hf
        exact (of_decide_eq_true hp).symm
      refine ⟨x, hx, hpre x hx, hxm, ?_⟩
      rw [hgm, hf]
      rfl

/-- Witness for C12 (amended): the rule `0xAB` of the store with one record. -/
theorem GetMaster_after_SetMaster_witness :
    GetObject oneRuleStore (ruleKey "chainA") =
        some ([] ++ (⟨"0xAB", "chainA", false, GovernanceBindable⟩ : Rule) :: []) ∧
      GetMaster (SetMaster oneRuleStore "0xAB" "chainA" true).1 "chainA" =
        (true, .rule ⟨"0xAB", "chainA", true, GovernanceBindable⟩) :=
  ⟨by decide,
    (GetMaster_after_SetMaster oneRuleStore "0xAB" "chainA" [] []
      ⟨"0xAB", "chainA", false, GovernanceBindable⟩ (by decide) rfl (by simp)).2.2.1
      (by simp)⟩

/-! ## Availability queries -/

theorem GetAvailableRuleAddress_of_some (st : Store) (chainId : String) (rules : List Rule)
    (hget : GetObject st (ruleKey chainId) = some rules) :
    GetAvailableRuleAddress st chainId =
      match rules.find? (fun r => decide (GovernanceAvailable = r.Status)) with
      | some r => (true, r.Address)
      | none => (false, "this appchain's available rule does not exist") := by
  simp only [GetAvailableRuleAddress, hget]

/-- C13: when the chain's collection (if there is one) contains no available
record, `GetAvailableRuleAddress` fails; and when a `ChangeStatus` call on that
state succeeds and leaves an available record in the chain's collection,
`GetAvailableRuleAddress` on the resulting state succeeds and returns exactly the
address the call targeted. -/
theorem GetAvailableRuleAddress_spec (st : Store) (chainId : String)
    (hnone : ∀ rules, GetObject st (ruleKey chainId) = some rules →
      ∀ r ∈ rules, r.Status ≠ GovernanceAvailable) :
    (GetAvailableRuleAddress st chainId).1 = false ∧
    ∀ A e, (ChangeStatus st A e chainId).2.1 = true →
      (∃ rules', GetObject (ChangeStatus st A e chainId).1 (ruleKey chainId) = some rules' ∧
        ∃ r' ∈ rules', r'.Status = GovernanceAvailable) →
      GetAvailableRuleAddress (ChangeStatus st A e chainId).1 chainId = (true, A) := by
  constructor
  · unfold GetAvailableRuleAddress
    cases hg : GetObject st (ruleKey chainId) with
    | none => rfl
    | some rules =>
      have hf : rules.find? (fun r => decide (GovernanceAvailable = r.Status)) = none := by
        rw [List.find?_eq_none]
        intro r hr
        have := hnone rules hg r hr
        simpa [eq_comm] using this
      simp only [hf]
  · intro A e hok hex
    rcases ChangeStatus_cases st A e chainId with ⟨hf, -⟩ | ⟨rules, hget, -, -, heq⟩
    · rw [hok] at hf
      cases hf
    · obtain ⟨rules', hget', r', hr', hS'⟩ := hex
      rw [heq] at hget' ⊢
      rw [GetObject_SetObject_same] at hget'
      cases hget'
      rw [GetAvailableRuleAddress_of_some _ _ _ (GetObject_SetObject_same _ _ _)]
      cases hfind : List.find? (fun r => decide (GovernanceAvailable = r.Status))
          (rules.map (fun r =>
            if A = r.Address then { r with Status := (specTable r.Status e).getD r.Status }
            else r)) with
      | none =>
        rw [List.find?_eq_none] at hfind
        exact absurd (decide_eq_true hS'.symm) (hfind r' hr')
      | some x =>
        have hx := List.mem_of_find?_eq_some hfind
        have hxS : GovernanceAvailable = x.Status :=
          of_decide_eq_true
            (List.find?_some (p := fun r : Rule => decide (GovernanceAvailable = r.Status)) hfind)
        have hxA : x.Address = A := by
          obtain ⟨r, hr, hrx⟩ := List.mem_map.mp hx
          by_cases hA : A = r.Address
          · rw [← hrx, if_pos hA]
            exact hA.symm
          · rw [← hrx, if_neg hA] at hxS
            exact absurd hxS.symm (hnone rules hget r hr)
        show (true, x.Address) = (true, A)
        rw [hxA]

/-- Witness for C13: the approval of the binding of `0xAB`, the only record. -/
theorem GetAvailableRuleAddress_spec_witness :
    (GetAvailableRuleAddress (ChangeStatus oneRuleStore "0xAB" EventBind "chainA").1
      "chainA").1 = false ∧
    GetAvailableRuleAddress
      (ChangeStatus (ChangeStatus oneRuleStore "0xAB" EventBind "chainA").1
        "0xAB" EventApprove "chainA").1 "chainA" = (true, "0xAB") :=
  have h := GetAvailableRuleAddress_spec
    (ChangeStatus oneRuleStore "0xAB" EventBind "chainA").1 "chainA"
    (by
      intro rules hget r hr
      have hrules : GetObject (ChangeStatus oneRuleStore "0xAB" EventBind "chainA").1
          (ruleKey "chainA") = some [⟨"0xAB", "chainA", false, GovernanceBinding⟩] := by decide
      rw [hrules] at hget
      cases hget
      rw [List.mem_singleton.mp hr]
      decide)
  ⟨h.1, h.2 "0xAB" EventApprove (by decide)
    ⟨[⟨"0xAB", "chainA", false, GovernanceAvailable⟩], by decide,
      ⟨"0xAB", "chainA", false, GovernanceAvailable⟩, by decide, rfl⟩⟩

/-- C14: `IsAvailable` succeeds if and only if the chain has a rule collection,
the collection contains a record with the address, and the first such record is
available; so it fails when the record is missing and when its status is
anything else. -/
theorem IsAvailable_iff (st : Store) (chainId a : String) :
    (IsAvailable st chainId a).1 = true ↔
      ∃ rules, GetObject st (ruleKey chainId) = some rules ∧
        ∃ r, rules.find? (fun r => decide (a = r.Address)) = some r ∧
          r.Status = GovernanceAvailable := by
  unfold IsAvailable QueryById
  cases hg : GetObject st (ruleKey chainId) with
  | none => simp
  | some rules =>
    cases hf : rules.find? (fun r => decide (a = r.Address)) with
    | none => simp [hf]
    | some r =>
      by_cases hS : r.Status = GovernanceAvailable
      · simp [hf, hS]
      · simp [hf, hS]

/-- Witness for C14: the query succeeds for the available record `0xCD` of
`masterPendingStore` and fails for its bindable record `0xAB`. -/
theorem IsAvailable_iff_witness :
    (IsAvailable masterPendingStore "chainA" "0xCD").1 = true ∧
    (IsAvailable masterPendingStore "chainA" "0xAB").1 = false :=
  ⟨(IsAvailable_iff masterPendingStore "chainA" "0xCD").mpr
      ⟨masterPendingRules, by decide, ⟨"0xCD", "chainA", false, GovernanceAvailable⟩,
        by decide, rfl⟩,
    by decide⟩

/-! ## Records are kept -/

theorem addresses_Register (st : Store) (k chainId a : String) :
    ∃ extra, ((GetObject (Register st chainId a).1 k).getD []).map Rule.Address =
      ((GetObject st k).getD []).map Rule.Address ++ extra ∧ extra.length ≤ 1 := by
  by_cases hkey : k = ruleKey chainId
  · subst hkey
    cases hg : GetObject st (ruleKey chainId) with
    | none =>
      rw [Register_of_none st chainId a hg]
      exact ⟨[a], by simp [GetObject_SetObject_same], by simp⟩
    | some rules =>
      by_cases hmem : ∃ r ∈ rules, r.Address = a
      · rw [Register_of_present st chainId a rules hg hmem]
        exact ⟨[], by simp [hg], by simp⟩
      · push_neg at hmem
        rw [Register_of_absent st chainId a rules hg hmem]
        exact ⟨[a], by simp [GetObject_SetObject_same], by simp⟩
  · exact ⟨[], by simp [Register_other_key st chainId a k hkey], by simp⟩

theorem addresses_SetMaster (st : Store) (k A chainId : String) (m : Bool) :
    ((GetObject (SetMaster st A chainId m).1 k).getD []).map Rule.Address =
      ((GetObject st k).getD []).map Rule.Address := by
  rcases SetMaster_cases st A chainId m with ⟨-, hst⟩ | ⟨rules, hget, -, heq⟩
  · rw [hst]
  · rw [heq]
    by_cases hkey : k = ruleKey chainId
    · subst hkey
      simp only [GetObject_SetObject_same, hget, Option.getD_some, List.map_map]
      apply List.map_congr_left
      intro r _
      by_cases hA : A = r.Address <;> simp [hA]
    · rw [GetObject_SetObject_other _ _ _ _ hkey]

theorem addresses_ChangeStatus (st : Store) (k A e chainId : String) :
    ((GetObject (ChangeStatus st A e chainId).1 k).getD []).map Rule.Address =
      ((GetObject st k).getD []).map Rule.Address := by
  rcases ChangeStatus_cases st A e chainId with ⟨-, hst⟩ | ⟨rules, hget, -, -, heq⟩
  · rw [hst]
  · rw [heq]
    by_cases hkey : k = ruleKey chainId
    · subst hkey
      simp only [GetObject_SetObject_same, hget, Option.getD_some, List.map_map]
      apply List.map_congr_left
      intro r _
      by_cases hA : A = r.Address <;> simp [hA]
    · rw [GetObject_SetObject_other _ _ _ _ hkey]

theorem CountAll_eq (st : Store) (chainId : String) :
    CountAll st chainId =
      (true, Itoa (((GetObject st (ruleKey chainId)).getD []).map Rule.Address).length) := by
  unfold CountAll
  cases GetObject st (ruleKey chainId) <;> simp

/-- C15: records are never deleted or reordered. Under every key of the store,
the sequence of record addresses after `Register` is the sequence before
followed by at most one address, and after `SetMaster` and after `ChangeStatus`
it is the sequence before; so for every call and chain the count `CountAll`
reports after the call is at least the count it reports before. -/
theorem records_kept (st : Store) (k : String) :
    (∀ chainId a, ∃ extra,
      ((GetObject (Register st chainId a).1 k).getD []).map Rule.Address =
        ((GetObject st k).getD []).map Rule.Address ++ extra ∧ extra.length ≤ 1) ∧
    (∀ A chainId m,
      ((GetObject (SetMaster st A chainId m).1 k).getD []).map Rule.Address =
        ((GetObject st k).getD []).map Rule.Address) ∧
    (∀ A e chainId,
      ((GetObject (ChangeStatus st A e chainId).1 k).getD []).map Rule.Address =
        ((GetObject st k).getD []).map Rule.Address) ∧
    (∀ (call : Call) chainId, ∃ n n', CountAll st chainId = (true, Itoa n) ∧
      CountAll (call.exec st) chainId = (true, Itoa n') ∧ n ≤ n') := by
  refine ⟨fun chainId a => addresses_Register st k chainId a,
    fun A chainId m => addresses_SetMaster st k A chainId m,
    fun A e chainId => addresses_ChangeStatus st k A e chainId, ?_⟩
  intro call chainId
  refine ⟨_, _, CountAll_eq st chainId, CountAll_eq (call.exec st) chainId, ?_⟩
  cases call with
  | register c a =>
    obtain ⟨extra, hex, -⟩ := addresses_Register st (ruleKey chainId) c a
    show _ ≤ (List.map Rule.Address ((GetObject (Register st c a).1 (ruleKey chainId)).getD [])).length
    rw [hex, List.length_append]
    exact Nat.le_add_right _ _
  | setMaster A c m =>
    show _ ≤ (List.map Rule.Address
      ((GetObject (SetMaster st A c m).1 (ruleKey chainId)).getD [])).length
    rw [addresses_SetMaster]
  | changeStatus A e c =>
    show _ ≤ (List.map Rule.Address
      ((GetObject (ChangeStatus st A e c).1 (ruleKey chainId)).getD [])).length
    rw [addresses_ChangeStatus]

/-! ## The scenario of the specification -/

/-- C16: starting from an empty store, `Register` for chain `chainA` and rule
`0xAB` succeeds; `BindPre` without force then succeeds; `ChangeStatus` with
`bind` succeeds and the status is binding; `ChangeStatus` with `approve`
succeeds and the status is available; `CountAvailable` then returns success
with the decimal string `1`. -/
theorem scenario_chainA :
    (Register emptyStore "chainA" "0xAB").2.1 = true ∧
    (BindPre scenarioRegistered "chainA" "0xAB" false).1 = true ∧
    (ChangeStatus scenarioRegistered "0xAB" "bind" "chainA").2.1 = true ∧
    GetObject scenarioBinding (ruleKey "chainA") =
      some [⟨"0xAB", "chainA", false, GovernanceBinding⟩] ∧
    (ChangeStatus scenarioBinding "0xAB" "approve" "chainA").2.1 = true ∧
    GetObject scenarioAvailable (ruleKey "chainA") =
      some [⟨"0xAB", "chainA", false, GovernanceAvailable⟩] ∧
    CountAvailable scenarioAvailable "chainA" = (true, "1") := by
  decide

end RuleMgr

namespace Validator

/-! ## The signature check -/

theorem resolveKey_of_hit {Artifact PK : Type} (lib : Lib Artifact PK) (pkMap : KeyCache PK)
    (sender validators : String) (pk : PK) (h : pkMap sender = some pk) :
    resolveKey lib pkMap sender validators = .ok (pk, pkMap) := by
  simp only [resolveKey, h]

theorem resolveKey_of_miss {Artifact PK : Type} (lib : Lib Artifact PK) (pkMap : KeyCache PK)
    (sender validators der : String) (pk : PK) (h : pkMap sender = none)
    (hpem : lib.pemDecode validators = some der)
    (hcert : lib.ParseCertificate der = .ok (.ecdsa pk)) :
    resolveKey lib pkMap sender validators = .ok (pk, pkMap.set sender pk) := by
  simp only [resolveKey, h, hpem, hcert]

/-- With a resolved key, `resolveKey` succeeds with that key. -/
theorem resolveKey_of_resolved {Artifact PK : Type} (lib : Lib Artifact PK)
    (pkMap : KeyCache PK) (sender validators : String) (pk : PK)
    (hkey : pkMap sender = some pk ∨
      (pkMap sender = none ∧ ∃ der, lib.pemDecode validators = some der ∧
        lib.ParseCertificate der = .ok (.ecdsa pk))) :
    ∃ pkMap', resolveKey lib pkMap sender validators = .ok (pk, pkMap') := by
  rcases hkey with h | ⟨h, der, hpem, hcert⟩
  · exact ⟨_, resolveKey_of_hit lib pkMap sender validators pk h⟩
  · exact ⟨_, resolveKey_of_miss lib pkMap sender validators der pk h hpem hcert⟩

/-- When `unmarshalECDSASignature` returns a pair. -/
theorem unmarshalECDSASignature_ok {Artifact PK : Type} (lib : Lib Artifact PK) (raw : String)
    (r s : Int) (h : lib.asn1Unmarshal raw = .ok (some r, some s)) (hr : 0 < r) (hs : 0 < s) :
    unmarshalECDSASignature lib raw = .ok (r, s) := by
  have hr1 : r.sign = 1 := Int.sign_eq_one_iff_pos.mpr hr
  have hs1 : s.sign = 1 := Int.sign_eq_one_iff_pos.mpr hs
  simp [unmarshalECDSASignature, h, hr1, hs1]

/-- When `unmarshalECDSASignature` returns an error. -/
theorem unmarshalECDSASignature_error {Artifact PK : Type} (lib : Lib Artifact PK)
    (raw : String)
    (h : (∃ err, lib.asn1Unmarshal raw = .error err) ∨
      ∃ R S, lib.asn1Unmarshal raw = .ok (R, S) ∧
        (R = none ∨ S = none ∨ (∃ r, R = some r ∧ r ≤ 0) ∨ (∃ s, S = some s ∧ s ≤ 0))) :
    ∃ msg, unmarshalECDSASignature lib raw = .error msg := by
  rcases h with ⟨err, herr⟩ | ⟨R, S, hok, hbad⟩
  · simp only [unmarshalECDSASignature, herr]
    exact ⟨_, rfl⟩
  · simp only [unmarshalECDSASignature, hok]
    cases R with
    | none => exact ⟨_, rfl⟩
    | some r =>
      cases S with
      | none => exact ⟨_, rfl⟩
      | some s =>
        by_cases hr : r.sign = 1
        · by_cases hs : s.sign = 1
          · exfalso
            have hr' := Int.sign_eq_one_iff_pos.mp hr
            have hs' := Int.sign_eq_one_iff_pos.mp hs
            rcases hbad with h | h | ⟨r', h, hle⟩ | ⟨s', h, hle⟩
            · cases h
            · cases h
            · cases h
              omega
            · cases h
              omega
          · show ∃ msg, (if r.sign ≠ 1 then _ else if s.sign ≠ 1 then _ else _) = _
            rw [if_neg (not_not.mpr hr), if_pos hs]
            exact ⟨_, rfl⟩
        · show ∃ msg, (if r.sign ≠ 1 then _ else _) = _
          rw [if_pos hr]
          exact ⟨_, rfl⟩

/-- C17: given a successfully extracted signature set with first entry `first`
and a resolved public key `pk` (cached for the sender, or on a miss taken from
the certificate in `validators`), `Verify` returns `false` with a non-nil error
when ASN.1 decoding of the signature of `first` fails and when the decoded `r`
or `s` is absent or not strictly positive; otherwise it returns a nil error and
the ECDSA verification of `(r, s)` under `pk` over the SHA-256 digest of the
`Data` of `first`, whatever the payload and the later entries are. -/
theorem Verify_signature_check {Artifact PK : Type} (lib : Lib Artifact PK)
    (pkMap : KeyCache PK) (address sender proof payload validators : String)
    (artifact : Artifact) (first : SignedData) (rest : List SignedData) (pk : PK)
    (hpre : lib.PreCheck proof payload "broker" = .ok artifact)
    (hset : lib.GetSignatureSet artifact = first :: rest)
    (hkey : pkMap sender = some pk ∨
      (pkMap sender = none ∧ ∃ der, lib.pemDecode validators = some der ∧
        lib.ParseCertificate der = .ok (.ecdsa pk))) :
    (∀ err, lib.asn1Unmarshal first.Signature = .error err →
      ∃ msg, (Verify lib pkMap address sender proof payload validators).1 =
        .ret false (some msg)) ∧
    (∀ R S, lib.asn1Unmarshal first.Signature = .ok (R, S) →
      (R = none ∨ S = none ∨ (∃ r, R = some r ∧ r ≤ 0) ∨ (∃ s, S = some s ∧ s ≤ 0)) →
      ∃ msg, (Verify lib pkMap address sender proof payload validators).1 =
        .ret false (some msg)) ∧
    (∀ r s, lib.asn1Unmarshal first.Signature = .ok (some r, some s) → 0 < r → 0 < s →
      (Verify lib pkMap address sender proof payload validators).1 =
        .ret (lib.ecdsaVerify pk (lib.sha256 first.Data) r s) none) := by
  obtain ⟨pkMap', hres⟩ := resolveKey_of_resolved lib pkMap sender validators pk hkey
  have hV : ∀ res, unmarshalECDSASignature lib first.Signature = res →
      (Verify lib pkMap address sender proof payload validators).1 =
        match res with
        | .error err => .ret false (some err)
        | .ok (r, s) => .ret (lib.ecdsaVerify pk (lib.sha256 first.Data) r s) none := by
    intro res hres'
    simp only [Verify, hpre, hset, hres, hres']
    cases res with
    | error err => rfl
    | ok p => rfl
  refine ⟨?_, ?_, ?_⟩
  · intro err herr
    obtain ⟨msg, hmsg⟩ := unmarshalECDSASignature_error lib first.Signature (Or.inl ⟨err, herr⟩)
    exact ⟨msg, hV _ hmsg⟩
  · intro R S hok hbad
    obtain ⟨msg, hmsg⟩ :=
      unmarshalECDSASignature_error lib first.Signature (Or.inr ⟨R, S, hok, hbad⟩)
    exact ⟨msg, hV _ hmsg⟩
  · intro r s hok hr hs
    exact hV _ (unmarshalECDSASignature_ok lib first.Signature r s hok hr hs)

/-- Witness for C17: on a cache miss the stand-in certificate `key` resolves, the
signature decodes to `(1, 1)` and verifies over the data `key`. -/
theorem Verify_signature_check_witness :
    (Verify stubLib emptyCache "0xAB" "alice" "sig" "key" "key").1 = .ret true none :=
  (Verify_signature_check stubLib emptyCache "0xAB" "alice" "sig" "key" "key"
    [⟨"key", "", "sig"⟩] ⟨"key", "", "sig"⟩ [] "key" rfl rfl
    (Or.inr ⟨rfl, "key", rfl, rfl⟩)).2.2 1 1 rfl (by decide) (by decide)

/-! ## The key cache -/

theorem KeyCache_set_same {PK : Type} (pkMap : KeyCache PK) (sender : String) (pk : PK) :
    pkMap.set sender pk sender = some pk := by
  simp [KeyCache.set]

theorem KeyCache_set_other {PK : Type} (pkMap : KeyCache PK) (sender k : String) (pk : PK)
    (h : k ≠ sender) : pkMap.set sender pk k = pkMap k := by
  simp [KeyCache.set, h]

/-- The cache `resolveKey` hands on is the old one, or the old one with a key
for a sender that had none. -/
theorem resolveKey_cache {Artifact PK : Type} (lib : Lib Artifact PK) (pkMap : KeyCache PK)
    (sender validators : String) (pk : PK) (pkMap' : KeyCache PK)
    (h : resolveKey lib pkMap sender validators = .ok (pk, pkMap')) :
    pkMap' = pkMap ∨ (pkMap sender = none ∧ pkMap' = pkMap.set sender pk) := by
  unfold resolveKey at h
  cases hc : pkMap sender with
  | some pk0 =>
    simp only [hc, Except.ok.injEq, Prod.mk.injEq] at h
    exact Or.inl h.2.symm
  | none =>
    simp only [hc] at h
    cases hp : lib.pemDecode validators with
    | none => simp [hp] at h
    | some der =>
      simp only [hp] at h
      cases hx : lib.ParseCertificate der with
      | error err => simp [hx] at h
      | ok key =>
        cases key with
        | other => simp [hx] at h
        | ecdsa pk1 =>
          simp only [hx, Except.ok.injEq, Prod.mk.injEq] at h
          exact Or.inr ⟨rfl, by rw [← h.2, h.1]⟩

/-- The cache `Verify` leaves is the cache `resolveKey` hands on, or the old one
when the call ends before or inside the key resolution. -/
theorem Verify_leaves_cache {Artifact PK : Type} (lib : Lib Artifact PK) (pkMap : KeyCache PK)
    (address sender proof payload validators : String) :
    (Verify lib pkMap address sender proof payload validators).2 = pkMap ∨
    ∃ artifact pk pkMap', lib.PreCheck proof payload "broker" = .ok artifact ∧
      resolveKey lib pkMap sender validators = .ok (pk, pkMap') ∧
      (Verify lib pkMap address sender proof payload validators).2 = pkMap' := by
  unfold Verify
  cases hpre : lib.PreCheck proof payload "broker" with
  | error err => exact Or.inl rfl
  | ok artifact =>
    cases hres : resolveKey lib pkMap sender validators with
    | error out => exact Or.inl rfl
    | ok p =>
      obtain ⟨pk, pkMap'⟩ := p
      refine Or.inr ⟨artifact, pk, pkMap', rfl, rfl, ?_⟩
      simp only
      cases lib.GetSignatureSet artifact with
      | nil => rfl
      | cons first rest =>
        simp only
        cases unmarshalECDSASignature lib first.Signature with
        | error err => rfl
        | ok q => rfl

/-- C19: once the key cache holds a key for a sender, two calls of `Verify` for
that sender that differ only in `validators` give the same outcome and the same
resulting cache, and no call of `Verify`, for any sender and arguments, changes
or removes the cached key; and on a cache miss with a certificate that resolves
to an ECDSA key, the key is in the resulting cache whatever the signature check
does. -/
theorem Verify_cache {Artifact PK : Type} (lib : Lib Artifact PK) (pkMap : KeyCache PK)
    (sender : String) :
    (∀ pk, pkMap sender = some pk →
      (∀ address proof payload v1 v2,
        Verify lib pkMap address sender proof payload v1 =
          Verify lib pkMap address sender proof payload v2) ∧
      (∀ address sender' proof payload validators,
        (Verify lib pkMap address sender' proof payload validators).2 sender = some pk)) ∧
    (∀ address proof payload validators artifact der pk,
      pkMap sender = none → lib.PreCheck proof payload "broker" = .ok artifact →
      lib.pemDecode validators = some der → lib.ParseCertificate der = .ok (.ecdsa pk) →
      (Verify lib pkMap address sender proof payload validators).2 sender = some pk) := by
  refine ⟨?_, ?_⟩
  · intro pk hhit
    refine ⟨?_, ?_⟩
    · intro address proof payload v1 v2
      simp only [Verify, resolveKey_of_hit lib pkMap sender _ pk hhit]
    · intro address sender' proof payload validators
      rcases Verify_leaves_cache lib pkMap address sender' proof payload validators with
        h | ⟨artifact, pk', pkMap', -, hres, h⟩
      · rw [h, hhit]
      · rw [h]
        rcases resolveKey_cache lib pkMap sender' validators pk' pkMap' hres with
          h' | ⟨hmiss, h'⟩
        · rw [h', hhit]
        · have hne : sender ≠ sender' := by
            intro heq
            rw [heq, hmiss] at hhit
            cases hhit
          rw [h', KeyCache_set_other _ _ _ _ hne, hhit]
  · intro address proof payload validators artifact der pk hmiss hpre hpem hcert
    rcases Verify_leaves_cache lib pkMap address sender proof payload validators with
      h | ⟨artifact', pk', pkMap', -, hres, h⟩
    · exfalso
      have hres := resolveKey_of_miss lib pkMap sender validators der pk hmiss hpem hcert
      have hV : (Verify lib pkMap address sender proof payload validators).2 =
          pkMap.set sender pk := by
        simp only [Verify, hpre, hres]
        cases lib.GetSignatureSet artifact with
        | nil => rfl
        | cons first rest =>
          simp only
          cases unmarshalECDSASignature lib first.Signature with
          | error err => rfl
          | ok q => rfl
      have h1 := congrFun h sender
      rw [hV, KeyCache_set_same, hmiss] at h1
      cases h1
    · rw [resolveKey_of_miss lib pkMap sender validators der pk hmiss hpem hcert] at hres
      simp only [Except.ok.injEq, Prod.mk.injEq] at hres
      rw [h, ← hres.2]
      exact KeyCache_set_same _ _ _

/-- Witness for C19: in the cache that holds the key `key` for `alice`, the
stand-in certificate `other` and an empty `validators` give the same result,
and on a miss the key is cached although the signature `bad` does not decode. -/
theorem Verify_cache_witness :
    Verify stubLib (emptyCache.set "alice" "key") "0xAB" "alice" "sig" "key" "other" =
        Verify stubLib (emptyCache.set "alice" "key") "0xAB" "alice" "sig" "key" "" ∧
      (Verify stubLib emptyCache "0xAB" "alice" "bad" "key" "key").2 "alice" = some "key" :=
  ⟨((Verify_cache stubLib (emptyCache.set "alice" "key") "alice").1 "key" rfl).1
      "0xAB" "sig" "key" "other" "",
    (Verify_cache stubLib emptyCache "alice").2 "0xAB" "bad" "key" "key"
      [⟨"key", "", "bad"⟩] "key" "key" rfl rfl rfl rfl⟩

/-! ## Panics -/

/-- C20 (the code at the failing inputs): after a successful proof extraction,
`Verify` stops with a panic, and returns no error, on a cache miss when
`validators` holds no PEM block, on a cache miss when the key of the parsed
certificate is not an ECDSA key, and with a resolved key when the signature set
is empty. -/
theorem Verify_panics {Artifact PK : Type} (lib : Lib Artifact PK) (pkMap : KeyCache PK)
    (address sender proof payload validators : String) (artifact : Artifact)
    (hpre : lib.PreCheck proof payload "broker" = .ok artifact) :
    (pkMap sender = none → lib.pemDecode validators = none →
      ∃ cause, (Verify lib pkMap address sender proof payload validators).1 = .panic cause) ∧
    (∀ der, pkMap sender = none → lib.pemDecode validators = some der →
      lib.ParseCertificate der = .ok .other →
      ∃ cause, (Verify lib pkMap address sender proof payload validators).1 = .panic cause) ∧
    (∀ pk, (pkMap sender = some pk ∨
        (pkMap sender = none ∧ ∃ der, lib.pemDecode validators = some der ∧
          lib.ParseCertificate der = .ok (.ecdsa pk))) →
      lib.GetSignatureSet artifact = [] →
      ∃ cause, (Verify lib pkMap address sender proof payload validators).1 = .panic cause) := by
  refine ⟨?_, ?_, ?_⟩
  · intro hmiss hpem
    have hres : resolveKey lib pkMap sender validators =
        .error (.panic "invalid memory address or nil pointer dereference") := by
      simp only [resolveKey, hmiss, hpem]
    have hV : (Verify lib pkMap address sender proof payload validators).1 =
        .panic "invalid memory address or nil pointer dereference" := by
      simp only [Verify, hpre, hres]
    exact ⟨_, hV⟩
  · intro der hmiss hpem hcert
    have hres : resolveKey lib pkMap sender validators =
        .error (.panic "interface conversion: not *ecdsa.PublicKey") := by
      simp only [resolveKey, hmiss, hpem, hcert]
    have hV : (Verify lib pkMap address sender proof payload validators).1 =
        .panic "interface conversion: not *ecdsa.PublicKey" := by
      simp only [Verify, hpre, hres]
    exact ⟨_, hV⟩
  · intro pk hkey hset
    obtain ⟨pkMap', hres⟩ := resolveKey_of_resolved lib pkMap sender validators pk hkey
    exact ⟨"index out of range [0] with length 0", by simp only [Verify, hpre, hres, hset]⟩

/-- Witness for C20: on a cache miss, `validators` without a PEM block makes the
call panic. -/
theorem Verify_panics_witness :
    stubLib.PreCheck "sig" "key" "broker" = .ok [⟨"key", "", "sig"⟩] ∧
      emptyCache "alice" = none ∧ stubLib.pemDecode "" = none ∧
      ∃ cause, (Verify stubLib emptyCache "0xAB" "alice" "sig" "key" "").1 = .panic cause :=
  ⟨rfl, rfl, rfl,
    (Verify_panics stubLib emptyCache "0xAB" "alice" "sig" "key" "" [⟨"key", "", "sig"⟩]
      rfl).1 rfl rfl⟩

end Validator
